import Mathlib

/-!
Verification of the log-scrubbing engine (internal/log/scrub.go of hcsshim).

The Go code is shallowly embedded as follows.

* JSON values, as produced by Go's encoding/json when decoding into
  `map[string]interface{}` (`genMap`), are the inductive type `Json`.
  Objects are represented as association lists sorted strictly by key:
  a Go map is unordered with unique keys and `json.Marshal` emits map keys
  in sorted order, so a key-sorted unique association list models the
  map-plus-sorting-encoder pair extensionally.  Duplicate keys in the
  input are collapsed with last-one-wins semantics by the parser, exactly
  as sequential Go map assignment does.
* Numbers are kept as their literal source token (`Json.num lit`): no
  claim depends on numeric values, and this avoids modelling float64.
  Go would re-canonicalize a float on re-encoding; we re-emit the token.
  Both behaviours are stable under a second encode, which is all the
  claims inspect.
* `json.Valid` / `json.Unmarshal` are modelled by the executable parser
  `Json.parse` (fuel-based recursive descent; the fuel `length + 1` is
  sufficient because every recursive call consumes at least one
  character).  `json.Encoder` with `SetEscapeHTML(false)` is modelled by
  `encodeJ`; `Encoder.Encode` appends a newline, modelled by `encode`.
* The process-wide atomic flag `_scrub` (read by `IsScrubbingEnabled`)
  is modelled by passing the boolean explicitly to each operation.
* Byte strings are modelled as `String`; the scrub keywords are ASCII,
  for which char-level substring containment coincides with Go's
  byte-level `bytes.Contains` on UTF-8 text.
-/

namespace Scrub

/-- JSON value trees as decoded by Go's encoding/json into
`map[string]interface{}` (objects key-sorted, see module comment). -/
inductive Json where
  | null : Json
  | bool (b : Bool) : Json
  | str (s : String) : Json
  | num (lit : String) : Json
  | arr (xs : List Json) : Json
  | obj (kvs : List (String × Json)) : Json

/-- Lexicographic order on char lists by code point, matching Go's
byte-wise string order on UTF-8 text. -/
def ltChars : List Char → List Char → Bool
  | [], [] => false
  | [], _ :: _ => true
  | _ :: _, [] => false
  | a :: as, b :: bs =>
    if a.toNat < b.toNat then true
    else if b.toNat < a.toNat then false
    else ltChars as bs

/-- Key order used for the sorted-association-list object representation. -/
def ltKey (a b : String) : Bool := ltChars a.data b.data

/-- Go map lookup `m[k]` on the association-list representation. -/
def lookupKV (kvs : List (String × Json)) (k : String) : Option Json :=
  match kvs with
  | [] => none
  | (k2, v) :: t => if k = k2 then some v else lookupKV t k

/-- Go map assignment `m[k] = v` on the sorted association-list
representation: replace an existing binding in place, otherwise insert
at the sorted position. -/
def insertKV (k : String) (v : Json) : List (String × Json) → List (String × Json)
  | [] => [(k, v)]
  | (k2, v2) :: t =>
    if k = k2 then (k, v) :: t
    else if ltKey k k2 then (k, v) :: (k2, v2) :: t
    else (k2, v2) :: insertKV k v t

/-- Builds a Go map from the parsed member list by sequential assignment
(last duplicate key wins). -/
def mkObj (ps : List (String × Json)) : List (String × Json) :=
  ps.foldl (fun acc kv => insertKV kv.1 kv.2 acc) []

/-- JSON insignificant whitespace (encoding/json scanner). -/
def isWs (c : Char) : Bool := c = ' ' || c = '\t' || c = '\n' || c = '\r'

/-- Skip insignificant whitespace. -/
def skipWs : List Char → List Char
  | [] => []
  | c :: cs => if isWs c then skipWs cs else c :: cs

/-- ASCII decimal digit test. -/
def isDigitCh (c : Char) : Bool := 48 ≤ c.toNat && c.toNat ≤ 57

/-- Hexadecimal digit value. -/
def hexVal (c : Char) : Option Nat :=
  if 48 ≤ c.toNat && c.toNat ≤ 57 then some (c.toNat - 48)
  else if 97 ≤ c.toNat && c.toNat ≤ 102 then some (c.toNat - 87)
  else if 65 ≤ c.toNat && c.toNat ≤ 70 then some (c.toNat - 55)
  else none

/-- Lower-case hexadecimal digit for `n < 16` (as emitted by Go's
encoder in `\u00xx` escapes). -/
def hexDigit (n : Nat) : Char :=
  if n < 10 then Char.ofNat (48 + n) else Char.ofNat (87 + n)

/-- Single-character JSON escape codes. -/
def escCode (c : Char) : Option Char :=
  if c = '"' then some '"'
  else if c = '\\' then some '\\'
  else if c = '/' then some '/'
  else if c = 'b' then some (Char.ofNat 8)
  else if c = 'f' then some (Char.ofNat 12)
  else if c = 'n' then some '\n'
  else if c = 'r' then some '\r'
  else if c = 't' then some '\t'
  else none

/-- Parses a JSON string body (after the opening quote), returning the
decoded characters and the remaining input.  Raw control characters are
rejected, as by Go's scanner. -/
def parseStringBody : List Char → Option (List Char × List Char)
  | [] => none
  | c :: cs =>
    if c = '"' then some ([], cs)
    else if c = '\\' then
      match cs with
      | 'u' :: h1 :: h2 :: h3 :: h4 :: r =>
        match hexVal h1, hexVal h2, hexVal h3, hexVal h4 with
        | some a, some b, some d, some e =>
          match parseStringBody r with
          | some (s, r2) => some (Char.ofNat (((a * 16 + b) * 16 + d) * 16 + e) :: s, r2)
          | none => none
        | _, _, _, _ => none
      | e :: r =>
        match escCode e with
        | some ec =>
          match parseStringBody r with
          | some (s, r2) => some (ec :: s, r2)
          | none => none
        | none => none
      | [] => none
    else if c.toNat < 32 then none
    else
      match parseStringBody cs with
      | some (s, r2) => some (c :: s, r2)
      | none => none

/-- Splits a leading run of decimal digits. -/
def takeDigits : List Char → List Char × List Char
  | [] => ([], [])
  | c :: cs =>
    if isDigitCh c then
      match takeDigits cs with
      | (ds, r) => (c :: ds, r)
    else ([], c :: cs)

/-- Lexes the integer part of a JSON number: `0`, or a nonzero digit
followed by digits. -/
def lexInt : List Char → Option (List Char × List Char)
  | [] => none
  | c :: cs =>
    if c = '0' then some (['0'], cs)
    else if isDigitCh c then
      match takeDigits cs with
      | (ds, r) => some (c :: ds, r)
    else none

/-- Lexes an optional fraction part `.digits`. -/
def lexFrac : List Char → List Char × List Char
  | [] => ([], [])
  | c :: cs =>
    if c = '.' then
      match cs with
      | c2 :: cs2 =>
        if isDigitCh c2 then
          match takeDigits cs2 with
          | (ds, r) => (c :: c2 :: ds, r)
        else ([], c :: cs)
      | [] => ([], c :: cs)
    else ([], c :: cs)

/-- Lexes an optional exponent part `[eE][+-]?digits`. -/
def lexExp : List Char → List Char × List Char
  | e :: cs =>
    if e = 'e' || e = 'E' then
      match cs with
      | s :: cs2 =>
        if s = '+' || s = '-' then
          match cs2 with
          | c :: cs3 =>
            if isDigitCh c then
              match takeDigits cs3 with
              | (ds, r) => (e :: s :: c :: ds, r)
            else ([], e :: s :: c :: cs3)
          | [] => ([], [e, s])
        else if isDigitCh s then
          match takeDigits cs2 with
          | (ds, r) => (e :: s :: ds, r)
        else ([], e :: s :: cs2)
      | [] => ([], [e])
    else ([], e :: cs)
  | [] => ([], [])

/-- Lexes the unsigned part of a number: integer, optional fraction,
optional exponent. -/
def lexNumTail (cs : List Char) : Option (List Char × List Char) :=
  match lexInt cs with
  | some (ip, cs2) =>
    match lexFrac cs2 with
    | (fp, cs3) =>
      match lexExp cs3 with
      | (ep, cs4) => some (ip ++ fp ++ ep, cs4)
  | none => none

/-- Lexes a JSON number token, returning the literal and the rest. -/
def lexNumber (cs : List Char) : Option (List Char × List Char) :=
  match cs with
  | [] => none
  | c :: cs1 =>
    if c = '-' then
      match lexNumTail cs1 with
      | some (tok, r) => some ('-' :: tok, r)
      | none => none
    else lexNumTail (c :: cs1)

mutual

/-- Fuel-based recursive-descent parser for a JSON value, modelling Go's
encoding/json scanner plus decoding into `interface{}`. -/
def parseVal : Nat → List Char → Option (Json × List Char)
  | 0, _ => none
  | fuel + 1, cs =>
    match skipWs cs with
    | [] => none
    | c :: r =>
      if c = 'n' then
        match r with
        | 'u' :: 'l' :: 'l' :: r2 => some (.null, r2)
        | _ => none
      else if c = 't' then
        match r with
        | 'r' :: 'u' :: 'e' :: r2 => some (.bool true, r2)
        | _ => none
      else if c = 'f' then
        match r with
        | 'a' :: 'l' :: 's' :: 'e' :: r2 => some (.bool false, r2)
        | _ => none
      else if c = '"' then
        match parseStringBody r with
        | some (s, r2) => some (.str ⟨s⟩, r2)
        | none => none
      else if c = '[' then
        match skipWs r with
        | [] => none
        | c2 :: r2 =>
          if c2 = ']' then some (.arr [], r2)
          else
            match parseVal fuel (c2 :: r2) with
            | some (x, r3) =>
              match parseElems fuel r3 with
              | some (xs, r4) => some (.arr (x :: xs), r4)
              | none => none
            | none => none
      else if c = '{' then
        match skipWs r with
        | [] => none
        | c2 :: r2 =>
          if c2 = '}' then some (.obj [], r2)
          else
            match parseMember fuel (c2 :: r2) with
            | some (kv, r3) =>
              match parseMembers fuel r3 with
              | some (ps, r4) => some (.obj (mkObj (kv :: ps)), r4)
              | none => none
            | none => none
      else
        match lexNumber (c :: r) with
        | some (tok, r2) => some (.num ⟨tok⟩, r2)
        | none => none

/-- Parses one `"key" : value` object member. -/
def parseMember : Nat → List Char → Option ((String × Json) × List Char)
  | 0, _ => none
  | fuel + 1, cs =>
    match skipWs cs with
    | [] => none
    | c :: r =>
      if c = '"' then
        match parseStringBody r with
        | some (k, r2) =>
          (match skipWs r2 with
           | [] => none
           | c2 :: r3 =>
             if c2 = ':' then
               match parseVal fuel r3 with
               | some (v, r4) => some ((⟨k⟩, v), r4)
               | none => none
             else none)
        | none => none
      else none

/-- Parses the remaining members of an object: `, member ... }`. -/
def parseMembers : Nat → List Char → Option (List (String × Json) × List Char)
  | 0, _ => none
  | fuel + 1, cs =>
    match skipWs cs with
    | [] => none
    | c :: r =>
      if c = '}' then some ([], r)
      else if c = ',' then
        match parseMember fuel r with
        | some (kv, r2) =>
          match parseMembers fuel r2 with
          | some (ps, r3) => some (kv :: ps, r3)
          | none => none
        | none => none
      else none

/-- Parses the remaining elements of an array: `, value ... ]`. -/
def parseElems : Nat → List Char → Option (List Json × List Char)
  | 0, _ => none
  | fuel + 1, cs =>
    match skipWs cs with
    | [] => none
    | c :: r =>
      if c = ']' then some ([], r)
      else if c = ',' then
        match parseVal fuel r with
        | some (x, r2) =>
          match parseElems fuel r2 with
          | some (xs, r3) => some (x :: xs, r3)
          | none => none
        | none => none
      else none

end

/-- Full-input JSON parse: `Json.parse s = some j` models both
`json.Valid(b)` (success) and the result of `json.Unmarshal` into
`interface{}`.  Trailing whitespace is allowed, trailing garbage is not. -/
def Json.parse (s : String) : Option Json :=
  match parseVal (s.length + 1) s.data with
  | some (j, rest) => if (skipWs rest).isEmpty then some j else none
  | none => none

/-- Per-character string escaping of Go's json encoder with
`SetEscapeHTML(false)`: only quote, backslash, control characters and
U+2028/U+2029 are escaped; `<`, `>`, `&` are emitted literally. -/
def escChar (c : Char) : List Char :=
  if c = '"' then ['\\', '"']
  else if c = '\\' then ['\\', '\\']
  else if c = '\n' then ['\\', 'n']
  else if c = '\r' then ['\\', 'r']
  else if c = '\t' then ['\\', 't']
  else if c.toNat < 32 then
    ['\\', 'u', '0', '0', hexDigit (c.toNat / 16), hexDigit (c.toNat % 16)]
  else if c.toNat = 0x2028 then ['\\', 'u', '2', '0', '2', '8']
  else if c.toNat = 0x2029 then ['\\', 'u', '2', '0', '2', '9']
  else [c]

/-- Escapes a character list. -/
def escapeChars : List Char → List Char
  | [] => []
  | c :: cs => escChar c ++ escapeChars cs

/-- Encodes a JSON string value (quotes plus escaped body). -/
def encStr (s : String) : List Char := '"' :: (escapeChars s.data ++ ['"'])

mutual

/-- JSON serialization, modelling Go's json encoder with
`SetEscapeHTML(false)` applied to the decoded value (map keys are
already sorted in the representation). -/
def encodeJ : Json → List Char
  | .null => ['n', 'u', 'l', 'l']
  | .num lit => lit.data
  | .bool true => ['t', 'r', 'u', 'e']
  | .str s => encStr s
  | .bool false => ['f', 'a', 'l', 's', 'e']
  | .arr xs => '[' :: (encElems0 xs ++ [']'])
  | .obj kvs => '{' :: (encMembers0 kvs ++ ['}'])

/-- Array body: all elements, comma-separated. -/
def encElems0 : List Json → List Char
  | [] => []
  | x :: xs => encodeJ x ++ encElems xs

/-- Array body after the first element: `, value` repeated. -/
def encElems : List Json → List Char
  | [] => []
  | x :: xs => ',' :: (encodeJ x ++ encElems xs)

/-- Object body: all members, comma-separated. -/
def encMembers0 : List (String × Json) → List Char
  | [] => []
  | (k, v) :: kvs => (encStr k ++ ':' :: encodeJ v) ++ encMembers kvs

/-- Object body after the first member: `, member` repeated. -/
def encMembers : List (String × Json) → List Char
  | [] => []
  | (k, v) :: kvs => ',' :: ((encStr k ++ ':' :: encodeJ v) ++ encMembers kvs)

end

/-- Model of the source's `encode(buf, v)`: a json.Encoder with
`SetEscapeHTML(false)`; `Encoder.Encode` writes the value followed by a
newline. -/
def encode (j : Json) : String := ⟨encodeJ j ++ ['\n']⟩

/-- Replacement sentinel (`ScrubbedReplacement` in the source). -/
def ScrubbedReplacement : String := "<scrubbed>"

/-- `needle` is a prefix of `hay`. -/
def startsWithSeq : List Char → List Char → Bool
  | [], _ => true
  | _ :: _, [] => false
  | a :: as, b :: bs => a == b && startsWithSeq as bs

/-- `bytes.Contains hay needle`: contiguous substring test. -/
def containsSeq (hay needle : List Char) : Bool :=
  match hay with
  | [] => needle.isEmpty
  | _ :: t => startsWithSeq needle hay || containsSeq t needle

/-- The fixed case-sensitive keyword list `_scrubKeywords`. -/
def scrubKeywords : List (List Char) := ["env".data, "Environment".data]

/-- `hasKeywords(b)`: true iff some keyword occurs as a contiguous
substring of the input. -/
def hasKeywords (s : String) : Bool :=
  scrubKeywords.any (fun kw => containsSeq s.data kw)

/-- Error results of the scrubbing operations.  The source returns
`ErrUnknownType` for every shape failure; decode failures surface the
json error, modelled by `decodeError`. -/
inductive ScrubError where
  | unknownType : ScrubError
  | decodeError : ScrubError
deriving DecidableEq

/-- The generic decoded message tree `genMap = map[string]interface{}`. -/
abbrev genMap := List (String × Json)

/-- `isRequestBase(m)`: both `ActivityId` and `ContainerId` keys present. -/
def isRequestBase (m : genMap) : Bool :=
  (lookupKV m "ActivityId").isSome && (lookupKV m "ContainerId").isSome

/-- The source's `index(m, s)`: combined `m, ok := m[s]` and generic-map
type assertion; `some` exactly when the key is present with an
object-shaped value. -/
def index (m : genMap) (s : String) : Option genMap :=
  match lookupKV m s with
  | some (.obj mm) => some mm
  | _ => none

/-- Modelled from the spec: the structured process-parameters shape
`hcsschema.ProcessParameters` (package internal/hcs/schema2, not under
src/).  The spec names a string-to-string environment mapping and a
`CommandLine` field (both `omitempty` on encoding); unknown JSON fields
are ignored on decoding, as Go does. -/
structure ProcessParameters where
  CommandLine : String := ""
  Environment : List (String × String) := []
deriving DecidableEq

/-- Decodes the entries of a string-to-string JSON environment map. -/
def decodeEnvEntries : List (String × Json) → Option (List (String × String))
  | [] => some []
  | (k, .str v) :: t =>
    match decodeEnvEntries t with
    | some es => some ((k, v) :: es)
    | none => none
  | _ => none

/-- Modelled from the spec: `json.Unmarshal` of a decoded JSON value
into `ProcessParameters`.  The top level must be an object (or `null`,
which leaves the zero value, as in Go); known fields must have their
declared types; unknown fields are ignored. -/
def decodePP (j : Json) : Option ProcessParameters :=
  match j with
  | .null => some {}
  | .obj kvs =>
    match
      (match lookupKV kvs "CommandLine" with
       | some (.str s) => some s
       | some .null => some ""
       | none => some ""
       | some _ => none) with
    | none => none
    | some cl =>
      match lookupKV kvs "Environment" with
      | some (.obj es) =>
        match decodeEnvEntries es with
        | some env => some { CommandLine := cl, Environment := env }
        | none => none
      | some .null => some { CommandLine := cl, Environment := [] }
      | none => some { CommandLine := cl, Environment := [] }
      | some _ => none
  | _ => none

/-- Modelled from the spec: the JSON value emitted for a
`ProcessParameters` (fields in declaration order, `omitempty`). -/
def ppJson (pp : ProcessParameters) : Json :=
  .obj ((if pp.CommandLine = "" then [] else [("CommandLine", Json.str pp.CommandLine)]) ++
        (if pp.Environment.isEmpty then [] else
          [("Environment", Json.obj (pp.Environment.map (fun e => (e.1, Json.str e.2))))]))

/-- `ScrubProcessParameters(s)` from the source, with the global scrub
flag passed explicitly.  Short-circuits to the unchanged input when
scrubbing is disabled, no keyword occurs, or the input is not valid
JSON; otherwise decodes the structured shape, overwrites `Environment`
with the sentinel mapping and re-encodes. -/
def ScrubProcessParameters (scrubEnabled : Bool) (s : String) : String × Option ScrubError :=
  if !scrubEnabled || !hasKeywords s || !(Json.parse s).isSome then (s, none)
  else
    match Json.parse s with
    | none => ("", some .decodeError)
    | some j =>
      match decodePP j with
      | none => ("", some .decodeError)
      | some pp =>
        (encode (ppJson { pp with
          Environment := [(ScrubbedReplacement, ScrubbedReplacement)] }), none)

/-- `scrubLinuxHostedSystem(m)` from the source: require the request
base, navigate `ContainerConfig` → `OciSpecification` → `process`
through object-shaped values, and replace an existing `env` with the
one-element sentinel array; anything else is `ErrUnknownType`.  The
in-place mutation of the shared nested maps is modelled by rebuilding
the path with map assignment. -/
def scrubLinuxHostedSystem (m : genMap) : Except ScrubError genMap :=
  if !isRequestBase m then .error .unknownType
  else
    match index m "ContainerConfig" with
    | some cc =>
      match index cc "OciSpecification" with
      | some oci =>
        match index oci "process" with
        | some proc =>
          if (lookupKV proc "env").isSome then
            .ok (insertKV "ContainerConfig"
              (.obj (insertKV "OciSpecification"
                (.obj (insertKV "process"
                  (.obj (insertKV "env" (.arr [.str ScrubbedReplacement]) proc)) oci)) cc)) m)
          else .error .unknownType
        | none => .error .unknownType
      | none => .error .unknownType
    | none => .error .unknownType

/-- `scrubExecuteProcess(m)` from the source: require the request base,
navigate `Settings`, require a string-valued `ProcessParameters`, pass
it through `ScrubProcessParameters` and store the result back. -/
def scrubExecuteProcess (scrubEnabled : Bool) (m : genMap) : Except ScrubError genMap :=
  if !isRequestBase m then .error .unknownType
  else
    match index m "Settings" with
    | some st =>
      match lookupKV st "ProcessParameters" with
      | some ss =>
        match ss with
        | .str s =>
          match ScrubProcessParameters scrubEnabled s with
          | (s2, none) =>
            .ok (insertKV "Settings" (.obj (insertKV "ProcessParameters" (.str s2) st)) m)
          | (_, some e) => .error e
        | _ => .error .unknownType
      | none => .error .unknownType
    | none => .error .unknownType

/-- `scrubBytes(b, scrub)` from the source: flag/keyword/validity
short-circuit returning the input unchanged, then decode into `genMap`
(`nil, err` — here `("", decodeError)` — when the top level is not an
object), apply the scrubber (propagating its error with a nil result),
and re-encode. -/
def scrubBytes (scrubEnabled : Bool) (b : String)
    (scrub : genMap → Except ScrubError genMap) : String × Option ScrubError :=
  if !scrubEnabled || !hasKeywords b || !(Json.parse b).isSome then (b, none)
  else
    match Json.parse b with
    | some (.obj m) =>
      match scrub m with
      | .error e => ("", some e)
      | .ok m2 => (encode (.obj m2), none)
    | _ => ("", some .decodeError)

/-- `ScrubBridgeCreate(b)` from the source. -/
def ScrubBridgeCreate (scrubEnabled : Bool) (b : String) : String × Option ScrubError :=
  scrubBytes scrubEnabled b scrubLinuxHostedSystem

/-- `ScrubBridgeExecProcess(b)` from the source. -/
def ScrubBridgeExecProcess (scrubEnabled : Bool) (b : String) : String × Option ScrubError :=
  scrubBytes scrubEnabled b (scrubExecuteProcess scrubEnabled)

mutual

/-- Node-count measure used as a fuel lower bound for the parser. -/
def sizeJ : Json → Nat
  | .null => 1
  | .bool _ => 1
  | .str _ => 1
  | .num _ => 1
  | .arr xs => 1 + sizeElems xs
  | .obj kvs => 1 + sizeMembers kvs

/-- Size of an element list. -/
def sizeElems : List Json → Nat
  | [] => 0
  | x :: xs => 1 + sizeJ x + sizeElems xs

/-- Size of a member list. -/
def sizeMembers : List (String × Json) → Nat
  | [] => 0
  | (_, v) :: kvs => 1 + sizeJ v + sizeMembers kvs

end

/-- Keys strictly ascending in the association-list order. -/
def sortedKeys : List (String × Json) → Bool
  | [] => true
  | [_] => true
  | (k1, _) :: (k2, v2) :: t => ltKey k1 k2 && sortedKeys ((k2, v2) :: t)

/-- The key `k0` is below the head key (vacuously true for `[]`). -/
def keyLtHead (k0 : String) : List (String × Json) → Bool
  | [] => true
  | kv :: _ => ltKey k0 kv.1

/-- All characters are decimal digits. -/
def allDigits (cs : List Char) : Bool := cs.all isDigitCh

/-- Shape of a lexed integer part. -/
def intTokenWf : List Char → Bool
  | [] => false
  | c :: cs => if c = '0' then cs.isEmpty else isDigitCh c && allDigits cs

/-- Shape of a lexed (possibly empty) fraction part. -/
def fracTokenWf : List Char → Bool
  | [] => true
  | c :: cs =>
    if c = '.' then
      match cs with
      | c2 :: ds => isDigitCh c2 && allDigits ds
      | [] => false
    else false

/-- Shape of a lexed (possibly empty) exponent part. -/
def expTokenWf : List Char → Bool
  | [] => true
  | e :: cs =>
    if e = 'e' || e = 'E' then
      match cs with
      | s :: ds =>
        if s = '+' || s = '-' then
          match ds with
          | d :: ds2 => isDigitCh d && allDigits ds2
          | [] => false
        else isDigitCh s && allDigits ds
      | [] => false
    else false

/-- Decomposition of a well-formed JSON number literal. -/
def numDecomp (tok : List Char) : Prop :=
  ∃ sgn ip fp ep, tok = sgn ++ ip ++ fp ++ ep ∧ (sgn = [] ∨ sgn = ['-']) ∧
    intTokenWf ip = true ∧ fracTokenWf fp = true ∧ expTokenWf ep = true

/-- The input does not begin with a character that could extend a
number token. -/
def numStop : List Char → Bool
  | [] => true
  | c :: _ => !(isDigitCh c || c = '.' || c = 'e' || c = 'E' || c = '+' || c = '-')

/-- The input does not begin with a digit. -/
def notDigitStart : List Char → Bool
  | [] => true
  | c :: _ => !isDigitCh c

/-- Number-literal well-formedness: the literal lexes to itself with no
remainder. -/
def numWf (lit : String) : Bool :=
  decide (lexNumber lit.data = some (lit.data, []))

mutual

/-- Well-formedness invariant of decoded values: object lists are
strictly key-sorted (the canonical map representation) and number
literals are exact lexer tokens.  Every tree produced by `Json.parse`
satisfies it. -/
def wfJ : Json → Bool
  | .null => true
  | .bool _ => true
  | .str _ => true
  | .num lit => numWf lit
  | .arr xs => wfElems xs
  | .obj kvs => sortedKeys kvs && wfMembers kvs

/-- All elements well-formed. -/
def wfElems : List Json → Bool
  | [] => true
  | x :: xs => wfJ x && wfElems xs

/-- All member values well-formed. -/
def wfMembers : List (String × Json) → Bool
  | [] => true
  | (_, v) :: kvs => wfJ v && wfMembers kvs

end

theorem charEq_of_toNat {a b : Char} (h : a.toNat = b.toNat) : a = b := by
  apply Char.ext
  exact UInt32.toNat.inj h

theorem ltChars_cons_iff (x y : Char) (as bs : List Char) :
    ltChars (x :: as) (y :: bs) = true ↔
      (x.toNat < y.toNat ∨ (x.toNat = y.toNat ∧ ltChars as bs = true)) := by
  by_cases h1 : x.toNat < y.toNat
  · simp [ltChars, h1]
  · by_cases h2 : y.toNat < x.toNat
    · simp only [ltChars, if_neg h1, if_pos h2]
      constructor
      · intro h; exact absurd h (by simp)
      · intro h
        rcases h with h | ⟨he, _⟩
        · omega
        · omega
    · have he : x.toNat = y.toNat := by omega
      simp [ltChars, h1, h2, he]

theorem ltChars_irrefl : ∀ cs : List Char, ltChars cs cs = false
  | [] => rfl
  | c :: cs => by simp [ltChars, ltChars_irrefl cs]

theorem ltChars_asymm_aux : ∀ a b : List Char,
    ltChars a b = true → ltChars b a = true → False
  | [], [], h, _ => by simp [ltChars] at h
  | [], _ :: _, _, h2 => by simp [ltChars] at h2
  | _ :: _, [], h1, _ => by simp [ltChars] at h1
  | a :: as, b :: bs, h1, h2 => by
    rw [ltChars_cons_iff] at h1 h2
    rcases h1 with h1 | ⟨e1, r1⟩ <;> rcases h2 with h2 | ⟨e2, r2⟩
    · omega
    · omega
    · omega
    · exact ltChars_asymm_aux as bs r1 r2

theorem ltChars_asymm {a b : List Char} (h : ltChars a b = true) : ltChars b a = false :=
  Bool.eq_false_iff.mpr fun h2 => ltChars_asymm_aux a b h h2

theorem ltChars_trans : ∀ a b c : List Char,
    ltChars a b = true → ltChars b c = true → ltChars a c = true
  | [], [], [], h1, _ => by simp [ltChars] at h1
  | [], [], _ :: _, h1, _ => by simp [ltChars] at h1
  | [], _ :: _, [], _, h2 => by simp [ltChars] at h2
  | [], _ :: _, _ :: _, _, _ => by simp [ltChars]
  | _ :: _, [], _, h1, _ => by simp [ltChars] at h1
  | _ :: _, _ :: _, [], _, h2 => by simp [ltChars] at h2
  | a :: as, b :: bs, c :: cs, h1, h2 => by
    rw [ltChars_cons_iff] at h1 h2 ⊢
    rcases h1 with h1 | ⟨e1, r1⟩ <;> rcases h2 with h2 | ⟨e2, r2⟩
    · left; omega
    · left; omega
    · left; omega
    · exact Or.inr ⟨e1.trans e2, ltChars_trans as bs cs r1 r2⟩

theorem ltChars_conn : ∀ a b : List Char,
    ltChars a b = false → ltChars b a = false → a = b
  | [], [], _, _ => rfl
  | [], _ :: _, h1, _ => by simp [ltChars] at h1
  | _ :: _, [], _, h2 => by simp [ltChars] at h2
  | a :: as, b :: bs, h1, h2 => by
    have n1 : ¬(a.toNat < b.toNat ∨ (a.toNat = b.toNat ∧ ltChars as bs = true)) := by
      rw [← ltChars_cons_iff]; simp [h1]
    have n2 : ¬(b.toNat < a.toNat ∨ (b.toNat = a.toNat ∧ ltChars bs as = true)) := by
      rw [← ltChars_cons_iff]; simp [h2]
    push_neg at n1 n2
    have he : a.toNat = b.toNat := by omega
    have hr1 : ltChars as bs = false := Bool.eq_false_iff.mpr (n1.2 he)
    have hr2 : ltChars bs as = false := Bool.eq_false_iff.mpr (n2.2 he.symm)
    rw [charEq_of_toNat he, ltChars_conn as bs hr1 hr2]

theorem ltKey_irrefl (k : String) : ltKey k k = false := ltChars_irrefl k.data

theorem ltKey_asymm {a b : String} (h : ltKey a b = true) : ltKey b a = false :=
  ltChars_asymm h

theorem ltKey_trans {a b c : String} (h1 : ltKey a b = true) (h2 : ltKey b c = true) :
    ltKey a c = true :=
  ltChars_trans a.data b.data c.data h1 h2

theorem ltKey_conn {a b : String} (h1 : ltKey a b = false) (h2 : ltKey b a = false) :
    a = b :=
  String.ext (ltChars_conn a.data b.data h1 h2)

theorem ne_of_ltKey {a b : String} (h : ltKey a b = true) : a ≠ b := by
  intro he
  subst he
  rw [ltKey_irrefl] at h
  exact Bool.false_ne_true h

theorem ltKey_of_not_of_ne {a b : String} (hne : a ≠ b) (h : ¬ ltKey a b = true) :
    ltKey b a = true := by
  rcases hb : ltKey b a with _ | _
  · exact absurd (ltKey_conn (Bool.eq_false_iff.mpr h) hb) hne
  · rfl

theorem lookupKV_mem : ∀ (l : List (String × Json)) (k : String) (v : Json),
    lookupKV l k = some v → (k, v) ∈ l
  | [], k, v => by simp [lookupKV]
  | (k2, v2) :: t, k, v => by
    simp only [lookupKV]
    by_cases h : k = k2
    · subst h
      rw [if_pos rfl]
      intro hv
      injection hv with hv
      subst hv
      exact List.mem_cons_self _ _
    · rw [if_neg h]
      intro hl
      exact List.mem_cons_of_mem _ (lookupKV_mem t k v hl)

theorem sortedKeys_tail : ∀ (k : String) (v : Json) (l : List (String × Json)),
    sortedKeys ((k, v) :: l) = true → sortedKeys l = true
  | _, _, [] => by simp [sortedKeys]
  | _, _, (k2, v2) :: t => by
    simp only [sortedKeys, Bool.and_eq_true]
    exact fun h => h.2

theorem sortedKeys_head_lt : ∀ (k : String) (v : Json) (l : List (String × Json)),
    sortedKeys ((k, v) :: l) = true → ∀ kv ∈ l, ltKey k kv.1 = true
  | _, _, [] => by simp
  | k, v, (k2, v2) :: t => by
    simp only [sortedKeys, Bool.and_eq_true]
    rintro ⟨h1, h2⟩ kv hkv
    rcases List.mem_cons.mp hkv with he | ht
    · subst he; exact h1
    · exact ltKey_trans h1 (sortedKeys_head_lt k2 v2 t h2 kv ht)

theorem sortedKeys_cons (k0 : String) (v0 : Json) (l : List (String × Json)) :
    sortedKeys ((k0, v0) :: l) = (keyLtHead k0 l && sortedKeys l) := by
  cases l with
  | nil => rfl
  | cons kv t =>
    obtain ⟨k2, v2⟩ := kv
    rfl

theorem insertKV_append : ∀ (l : List (String × Json)) (k : String) (v : Json),
    (∀ kv ∈ l, ltKey kv.1 k = true) → insertKV k v l = l ++ [(k, v)]
  | [], _, _, _ => rfl
  | (k2, v2) :: t, k, v, h => by
    have hk2 : ltKey k2 k = true := h (k2, v2) (List.mem_cons_self _ _)
    have hne : k ≠ k2 := fun he => ne_of_ltKey hk2 he.symm
    have hnlt : ltKey k k2 = false := ltKey_asymm hk2
    simp only [insertKV, if_neg hne, hnlt, Bool.false_eq_true, if_false, List.cons_append,
      List.cons.injEq, true_and]
    exact insertKV_append t k v fun kv hkv => h kv (List.mem_cons_of_mem _ hkv)

theorem sortedKeys_append_lt : ∀ (xs : List (String × Json)) (k : String) (v : Json)
    (ys : List (String × Json)),
    sortedKeys (xs ++ (k, v) :: ys) = true → ∀ kv ∈ xs, ltKey kv.1 k = true
  | [], _, _, _, _ => by simp
  | (k0, v0) :: xs, k, v, ys, h => by
    intro kv hkv
    rcases List.mem_cons.mp hkv with he | ht
    · subst he
      exact sortedKeys_head_lt k0 v0 (xs ++ (k, v) :: ys) h (k, v) (by simp)
    · exact sortedKeys_append_lt xs k v ys
        (sortedKeys_tail k0 v0 (xs ++ (k, v) :: ys) h) kv ht

theorem foldl_insertKV_sorted : ∀ (l acc : List (String × Json)),
    sortedKeys (acc ++ l) = true →
    List.foldl (fun a kv => insertKV kv.1 kv.2 a) acc l = acc ++ l
  | [], acc, _ => by simp
  | (k, v) :: t, acc, h => by
    have hlt : ∀ kv ∈ acc, ltKey kv.1 k = true := sortedKeys_append_lt acc k v t h
    simp only [List.foldl]
    rw [insertKV_append acc k v hlt]
    have hs : sortedKeys ((acc ++ [(k, v)]) ++ t) = true := by
      rw [List.append_assoc]
      simpa using h
    rw [foldl_insertKV_sorted t (acc ++ [(k, v)]) hs]
    simp

theorem mkObj_sorted_id {l : List (String × Json)} (h : sortedKeys l = true) :
    mkObj l = l := by
  have := foldl_insertKV_sorted l [] (by simpa using h)
  simpa [mkObj] using this

theorem lookupKV_insertKV_eq : ∀ (l : List (String × Json)) (k : String) (v : Json),
    lookupKV (insertKV k v l) k = some v
  | [], k, v => by simp [insertKV, lookupKV]
  | (k2, v2) :: t, k, v => by
    by_cases he : k = k2
    · subst he
      simp [insertKV, lookupKV]
    · by_cases hlt : ltKey k k2 = true
      · simp [insertKV, if_neg he, hlt, lookupKV]
      · simp only [insertKV, if_neg he, hlt, Bool.false_eq_true, if_false, lookupKV]
        exact lookupKV_insertKV_eq t k v

theorem lookupKV_insertKV_ne : ∀ (l : List (String × Json)) (k k2 : String) (v : Json),
    k2 ≠ k → lookupKV (insertKV k v l) k2 = lookupKV l k2
  | [], k, k', v, hne => by simp [insertKV, lookupKV, if_neg hne]
  | (k3, v3) :: t, k, k', v, hne => by
    by_cases he : k = k3
    · subst he
      simp only [insertKV, if_pos rfl, lookupKV, if_neg hne]
    · by_cases hlt : ltKey k k3 = true
      · simp only [insertKV, if_neg he, hlt, if_true, lookupKV, if_neg hne]
      · simp only [insertKV, if_neg he, hlt, Bool.false_eq_true, if_false, lookupKV]
        by_cases he2 : k' = k3
        · rw [if_pos he2, if_pos he2]
        · rw [if_neg he2, if_neg he2]
          exact lookupKV_insertKV_ne t k k' v hne

theorem insertKV_insertKV_same : ∀ (l : List (String × Json)) (k : String) (v v2 : Json),
    insertKV k v (insertKV k v2 l) = insertKV k v l
  | [], k, v, v2 => by simp [insertKV]
  | (k3, v3) :: t, k, v, v2 => by
    by_cases he : k = k3
    · subst he
      simp [insertKV]
    · by_cases hlt : ltKey k k3 = true
      · simp [insertKV, if_neg he, hlt]
      · simp only [insertKV, if_neg he, hlt, Bool.false_eq_true, if_false, List.cons.injEq,
          true_and]
        exact insertKV_insertKV_same t k v v2

theorem insertKV_lookup_self : ∀ (l : List (String × Json)) (k : String) (v : Json),
    sortedKeys l = true → lookupKV l k = some v → insertKV k v l = l
  | [], k, v, _, hl => by simp [lookupKV] at hl
  | (k2, v2) :: t, k, v, hs, hl => by
    by_cases he : k = k2
    · subst he
      simp only [lookupKV, if_pos rfl] at hl
      injection hl with hl
      subst hl
      simp [insertKV]
    · simp only [lookupKV, if_neg he] at hl
      have hmem := lookupKV_mem t k v hl
      have hgt : ltKey k2 k = true := sortedKeys_head_lt k2 v2 t hs (k, v) hmem
      have hnlt : ltKey k k2 = false := ltKey_asymm hgt
      simp only [insertKV, if_neg he, hnlt, Bool.false_eq_true, if_false, List.cons.injEq,
        true_and]
      exact insertKV_lookup_self t k v (sortedKeys_tail k2 v2 t hs) hl

theorem insertKV_keyLtHead : ∀ (t : List (String × Json)) (k0 k : String) (v : Json),
    ltKey k0 k = true → keyLtHead k0 t = true → keyLtHead k0 (insertKV k v t) = true
  | [], k0, k, v, hk, _ => hk
  | (k3, v3) :: t3, k0, k, v, hk, hh => by
    by_cases he : k = k3
    · subst he
      simpa [insertKV, keyLtHead] using hk
    · by_cases hlt : ltKey k k3 = true
      · simpa [insertKV, if_neg he, hlt, keyLtHead] using hk
      · simpa [insertKV, if_neg he, hlt, keyLtHead] using hh

theorem insertKV_sorted : ∀ (l : List (String × Json)) (k : String) (v : Json),
    sortedKeys l = true → sortedKeys (insertKV k v l) = true
  | [], k, v, _ => by simp [insertKV, sortedKeys]
  | (k2, v2) :: t, k, v, h => by
    by_cases he : k = k2
    · subst he
      have hi : insertKV k v ((k, v2) :: t) = (k, v) :: t := by simp [insertKV]
      rw [hi, sortedKeys_cons]
      rw [sortedKeys_cons] at h
      exact h
    · by_cases hlt : ltKey k k2 = true
      · have hi : insertKV k v ((k2, v2) :: t) = (k, v) :: (k2, v2) :: t := by
          simp [insertKV, if_neg he, hlt]
        rw [hi, sortedKeys_cons, Bool.and_eq_true]
        exact ⟨hlt, h⟩
      · have hgt : ltKey k2 k = true := ltKey_of_not_of_ne he hlt
        rw [sortedKeys_cons, Bool.and_eq_true] at h
        simp only [insertKV, if_neg he, hlt, Bool.false_eq_true, if_false, sortedKeys_cons,
          Bool.and_eq_true]
        exact ⟨insertKV_keyLtHead t k2 k v hgt h.1, insertKV_sorted t k v h.2⟩

theorem wfMembers_of_mem : ∀ (l : List (String × Json)) (k : String) (v : Json),
    (k, v) ∈ l → wfMembers l = true → wfJ v = true
  | [], _, _, hm, _ => by simp at hm
  | (k2, v2) :: t, k, v, hm, hw => by
    simp only [wfMembers, Bool.and_eq_true] at hw
    rcases List.mem_cons.mp hm with he | ht
    · injection he with he1 he2
      subst he2
      exact hw.1
    · exact wfMembers_of_mem t k v ht hw.2

theorem wfMembers_insertKV : ∀ (l : List (String × Json)) (k : String) (v : Json),
    wfJ v = true → wfMembers l = true → wfMembers (insertKV k v l) = true
  | [], k, v, hv, _ => by simp [insertKV, wfMembers, hv]
  | (k2, v2) :: t, k, v, hv, hw => by
    simp only [wfMembers, Bool.and_eq_true] at hw
    by_cases he : k = k2
    · subst he
      simp [insertKV, wfMembers, hv, hw.2]
    · by_cases hlt : ltKey k k2 = true
      · simp [insertKV, if_neg he, hlt, wfMembers, hv, hw.1, hw.2]
      · simp only [insertKV, if_neg he, hlt, Bool.false_eq_true, if_false, wfMembers,
          Bool.and_eq_true]
        exact ⟨hw.1, wfMembers_insertKV t k v hv hw.2⟩

theorem startsWithSeq_append (t rest : List Char) : startsWithSeq t (t ++ rest) = true := by
  induction t with
  | nil => rfl
  | cons c t ih => simp [startsWithSeq, ih]

theorem containsSeq_of_append : ∀ (a t b : List Char), containsSeq (a ++ t ++ b) t = true
  | [], t, b => by
    cases t with
    | nil => cases b <;> simp [containsSeq, startsWithSeq]
    | cons c t2 =>
      show containsSeq ((c :: t2) ++ b) (c :: t2) = true
      cases hb : (c :: t2) ++ b with
      | nil => simp at hb
      | cons x r =>
        rw [containsSeq, Bool.or_eq_true, ← hb]
        exact Or.inl (startsWithSeq_append (c :: t2) b)
  | c :: a, t, b => by
    show containsSeq (c :: (a ++ t ++ b)) t = true
    rw [containsSeq, Bool.or_eq_true]
    exact Or.inr (containsSeq_of_append a t b)

theorem hasKeywords_of_env {s : String} (h : containsSeq s.data ("env".data) = true) :
    hasKeywords s = true := by
  simp only [hasKeywords, scrubKeywords, List.any_cons, List.any_nil, Bool.or_eq_true]
  exact Or.inl h

theorem hasKeywords_of_environment {s : String}
    (h : containsSeq s.data ("Environment".data) = true) : hasKeywords s = true := by
  simp only [hasKeywords, scrubKeywords, List.any_cons, List.any_nil, Bool.or_eq_true]
  exact Or.inr (Or.inl h)

theorem escapeChars_append : ∀ (a b : List Char),
    escapeChars (a ++ b) = escapeChars a ++ escapeChars b
  | [], b => rfl
  | c :: a, b => by
    show escapeChars (c :: (a ++ b)) = escapeChars (c :: a) ++ escapeChars b
    rw [escapeChars, escapeChars, escapeChars_append a b, List.append_assoc]

theorem encMembers_append : ∀ (a b : List (String × Json)),
    encMembers (a ++ b) = encMembers a ++ encMembers b
  | [], b => rfl
  | (k, v) :: a, b => by
    show encMembers ((k, v) :: (a ++ b)) = encMembers ((k, v) :: a) ++ encMembers b
    rw [encMembers, encMembers, encMembers_append a b]
    simp [List.append_assoc]

theorem encodeJ_obj_split {kvs : List (String × Json)} {k : String} {v : Json}
    (h : (k, v) ∈ kvs) :
    ∃ A B, encodeJ (.obj kvs) = A ++ (encStr k ++ ':' :: encodeJ v) ++ B := by
  obtain ⟨l1, l2, rfl⟩ := List.append_of_mem h
  cases l1 with
  | nil =>
    refine ⟨['{'], encMembers l2 ++ ['}'], ?_⟩
    simp [encodeJ, encMembers0, List.append_assoc]
  | cons kv0 l0 =>
    obtain ⟨k0, v0⟩ := kv0
    refine ⟨'{' :: (encStr k0 ++ ':' :: encodeJ v0) ++ encMembers l0 ++ [','],
      encMembers l2 ++ ['}'], ?_⟩
    simp [encodeJ, encMembers0, encMembers_append, encMembers, List.append_assoc]

theorem digit_ne {c d : Char} (h1 : isDigitCh c = true) (h2 : isDigitCh d = false) : c ≠ d := by
  intro he
  subst he
  rw [h1] at h2
  cases h2

theorem takeDigits_append : ∀ (ds rest : List Char), allDigits ds = true →
    notDigitStart rest = true → takeDigits (ds ++ rest) = (ds, rest)
  | [], rest, _, hr => by
    cases rest with
    | nil => rfl
    | cons c r =>
      simp only [notDigitStart, Bool.not_eq_true'] at hr
      simp [takeDigits, hr]
  | d :: ds, rest, hd, hr => by
    simp only [allDigits, List.all_cons, Bool.and_eq_true] at hd
    have ih := takeDigits_append ds rest hd.2 hr
    simp [takeDigits, hd.1, ih]

theorem takeDigits_inv : ∀ (cs ds r : List Char), takeDigits cs = (ds, r) →
    allDigits ds = true ∧ cs = ds ++ r ∧ notDigitStart r = true
  | [], ds, r, h => by
    simp only [takeDigits] at h
    cases h
    simp [allDigits, notDigitStart]
  | c :: cs, ds, r, h => by
    by_cases hc : isDigitCh c = true
    · simp only [takeDigits, hc, if_true] at h
      rcases htd : takeDigits cs with ⟨ds2, r2⟩
      rw [htd] at h
      cases h
      have ih := takeDigits_inv cs ds2 r2 htd
      refine ⟨?_, by simp [ih.2.1], ih.2.2⟩
      rw [allDigits, List.all_cons, Bool.and_eq_true]
      exact ⟨hc, ih.1⟩
    · rw [takeDigits, if_neg hc] at h
      cases h
      refine ⟨rfl, rfl, ?_⟩
      simp only [notDigitStart, Bool.not_eq_true']
      exact Bool.eq_false_iff.mpr hc

theorem lexInt_append : ∀ (ip rest : List Char), intTokenWf ip = true →
    notDigitStart rest = true → lexInt (ip ++ rest) = some (ip, rest)
  | [], _, hw, _ => by simp [intTokenWf] at hw
  | c :: cs, rest, hw, hr => by
    by_cases hc : c = '0'
    · subst hc
      rw [intTokenWf, if_pos rfl] at hw
      have : cs = [] := by simpa using hw
      subst this
      simp [lexInt]
    · rw [intTokenWf, if_neg hc, Bool.and_eq_true] at hw
      have htd := takeDigits_append cs rest hw.2 hr
      simp [lexInt, hc, hw.1, htd]

theorem lexFrac_append : ∀ (fp rest : List Char), fracTokenWf fp = true →
    notDigitStart rest = true → rest.head? ≠ some '.' →
    lexFrac (fp ++ rest) = (fp, rest)
  | [], rest, _, h1, h2 => by
    cases rest with
    | nil => rfl
    | cons c r =>
      have hc : ¬ c = '.' := fun he => h2 (by subst he; rfl)
      simp only [notDigitStart, Bool.not_eq_true'] at h1
      simp [lexFrac, hc]
  | c :: cs, rest, hw, h1, _ => by
    by_cases hc : c = '.'
    · subst hc
      cases cs with
      | nil => simp [fracTokenWf] at hw
      | cons c2 ds =>
        simp [fracTokenWf] at hw
        have htd := takeDigits_append ds rest hw.2 h1
        simp [lexFrac, hw.1, htd]
    · simp [fracTokenWf, hc] at hw

theorem lexExp_append : ∀ (ep rest : List Char), expTokenWf ep = true →
    notDigitStart rest = true → rest.head? ≠ some 'e' → rest.head? ≠ some 'E' →
    lexExp (ep ++ rest) = (ep, rest)
  | [], rest, _, h1, h2, h3 => by
    cases rest with
    | nil => rfl
    | cons c r =>
      have hce : ¬ c = 'e' := fun he => h2 (by subst he; rfl)
      have hcE : ¬ c = 'E' := fun he => h3 (by subst he; rfl)
      simp [lexExp, hce, hcE]
  | e :: cs, rest, hw, h1, _, _ => by
    by_cases he : e = 'e' || e = 'E'
    · cases cs with
      | nil => simp [expTokenWf, he] at hw
      | cons s ds =>
        by_cases hs : s = '+' || s = '-'
        · cases ds with
          | nil => simp [expTokenWf, he, hs] at hw
          | cons d ds2 =>
            simp [expTokenWf, he, hs] at hw
            have htd := takeDigits_append ds2 rest hw.2 h1
            simp [lexExp, he, hs, hw.1, htd]
        · simp [expTokenWf, he, hs] at hw
          have htd := takeDigits_append ds rest hw.2 h1
          simp [lexExp, he, hs, hw.1, htd]
    · simp [expTokenWf, he] at hw

theorem numStop_spec {rest : List Char} (h : numStop rest = true) :
    notDigitStart rest = true ∧ rest.head? ≠ some '.' ∧ rest.head? ≠ some 'e' ∧
    rest.head? ≠ some 'E' := by
  cases rest with
  | nil => simp [notDigitStart]
  | cons c r =>
    simp only [numStop, Bool.not_eq_true', Bool.or_eq_false_iff, decide_eq_false_iff_not] at h
    refine ⟨by simp [notDigitStart, h.1.1.1.1.1], ?_, ?_, ?_⟩ <;>
      simp only [List.head?, ne_eq, Option.some.injEq] <;> intro he
    · exact h.1.1.1.1.2 he
    · exact h.1.1.1.2 he
    · exact h.1.1.2 he

theorem fracTokenWf_notDigitStart : ∀ (fp rest : List Char), fracTokenWf fp = true →
    notDigitStart rest = true → notDigitStart (fp ++ rest) = true
  | [], rest, _, h1 => h1
  | c :: cs, rest, hw, _ => by
    by_cases hc : c = '.'
    · subst hc
      simp [notDigitStart, isDigitCh]
    · simp [fracTokenWf, hc] at hw

theorem expTokenWf_notDigitStart : ∀ (ep rest : List Char), expTokenWf ep = true →
    notDigitStart rest = true → notDigitStart (ep ++ rest) = true
  | [], rest, _, h1 => h1
  | e :: cs, rest, hw, _ => by
    by_cases he : e = 'e' || e = 'E'
    · rw [Bool.or_eq_true, decide_eq_true_eq, decide_eq_true_eq] at he
      rcases he with h | h
      all_goals
        subst h
        simp [notDigitStart, isDigitCh]
    · simp [expTokenWf, he] at hw

theorem lexNumTail_append (ip fp ep rest : List Char) (hip : intTokenWf ip = true)
    (hfp : fracTokenWf fp = true) (hep : expTokenWf ep = true)
    (hstop : numStop rest = true) :
    lexNumTail ((ip ++ fp ++ ep) ++ rest) = some (ip ++ fp ++ ep, rest) := by
  obtain ⟨hnd, hdot, hle, hlE⟩ := numStop_spec hstop
  have hndE : notDigitStart (ep ++ rest) = true := expTokenWf_notDigitStart ep rest hep hnd
  have hndF : notDigitStart (fp ++ (ep ++ rest)) = true :=
    fracTokenWf_notDigitStart fp (ep ++ rest) hfp hndE
  have hdotE : (ep ++ rest).head? ≠ some '.' := by
    cases ep with
    | nil => simpa using hdot
    | cons e cs =>
      by_cases he : e = 'e' || e = 'E'
      · rw [Bool.or_eq_true, decide_eq_true_eq, decide_eq_true_eq] at he
        rcases he with h | h
        all_goals
          subst h
          simp
      · simp [expTokenWf, he] at hep
  have hi := lexInt_append ip (fp ++ (ep ++ rest)) hip hndF
  have hf := lexFrac_append fp (ep ++ rest) hfp hndE hdotE
  have hx := lexExp_append ep rest hep hnd hle hlE
  rw [lexNumTail, List.append_assoc, List.append_assoc, hi]
  simp only [hf, hx]

theorem lexNumber_append {tok rest : List Char} (h : numDecomp tok)
    (hstop : numStop rest = true) : lexNumber (tok ++ rest) = some (tok, rest) := by
  obtain ⟨sgn, ip, fp, ep, rfl, hsgn, hip, hfp, hep⟩ := h
  have hipShape : ∃ c cs, ip = c :: cs ∧ isDigitCh c = true := by
    cases ip with
    | nil => simp [intTokenWf] at hip
    | cons c cs =>
      refine ⟨c, cs, rfl, ?_⟩
      rw [intTokenWf] at hip
      by_cases hc : c = '0'
      · subst hc; simp [isDigitCh]
      · rw [if_neg hc, Bool.and_eq_true] at hip
        exact hip.1
  obtain ⟨c, cs, rfl, hdc⟩ := hipShape
  rcases hsgn with rfl | rfl
  · have := lexNumTail_append (c :: cs) fp ep rest hip hfp hep hstop
    have hcm : ¬ c = '-' := digit_ne hdc (by decide)
    simp only [List.nil_append]
    rw [show (c :: cs) ++ fp ++ ep ++ rest = c :: (cs ++ fp ++ ep ++ rest) by simp, lexNumber,
      if_neg hcm]
    rw [show c :: (cs ++ fp ++ ep ++ rest) = ((c :: cs) ++ fp ++ ep) ++ rest by simp]
    exact this
  · have := lexNumTail_append (c :: cs) fp ep rest hip hfp hep hstop
    rw [show (['-'] ++ (c :: cs) ++ fp ++ ep) ++ rest = '-' :: (((c :: cs) ++ fp ++ ep) ++ rest)
      by simp, lexNumber, if_pos rfl, this]
    simp

theorem lexInt_inv : ∀ (cs ip r : List Char), lexInt cs = some (ip, r) → intTokenWf ip = true
  | [], ip, r, h => by simp [lexInt] at h
  | c :: cs, ip, r, h => by
    by_cases hc : c = '0'
    · subst hc
      rw [lexInt, if_pos rfl] at h
      injection h with h
      cases h
      rfl
    · rw [lexInt, if_neg hc] at h
      by_cases hd : isDigitCh c = true
      · rw [if_pos hd] at h
        cases htd : takeDigits cs with
        | mk ds r2 =>
          rw [htd] at h
          injection h with h
          cases h
          have := takeDigits_inv cs ds _ htd
          rw [intTokenWf, if_neg hc, Bool.and_eq_true]
          exact ⟨hd, this.1⟩
      · rw [if_neg hd] at h
        cases h

theorem lexFrac_inv : ∀ (cs fp r : List Char), lexFrac cs = (fp, r) → fracTokenWf fp = true
  | [], fp, r, h => by
    rw [show lexFrac [] = (([] : List Char), ([] : List Char)) from rfl] at h
    cases h
    rfl
  | c :: cs, fp, r, h => by
    by_cases hc : c = '.'
    · subst hc
      cases cs with
      | nil =>
        simp only [lexFrac, if_pos rfl] at h
        cases h
        rfl
      | cons c2 ds =>
        by_cases hd : isDigitCh c2 = true
        · simp only [lexFrac, if_pos rfl, if_pos hd] at h
          cases htd : takeDigits ds with
          | mk ds2 r2 =>
            rw [htd] at h
            cases h
            have := takeDigits_inv ds ds2 _ htd
            simp [fracTokenWf, hd, this.1]
        · simp only [lexFrac, if_pos rfl, if_neg hd] at h
          cases h
          rfl
    · simp only [lexFrac, if_neg hc] at h
      cases h
      rfl

theorem lexExp_inv : ∀ (cs ep r : List Char), lexExp cs = (ep, r) → expTokenWf ep = true
  | [], ep, r, h => by
    rw [show lexExp [] = (([] : List Char), ([] : List Char)) from rfl] at h
    cases h
    rfl
  | e :: cs, ep, r, h => by
    by_cases he : e = 'e' || e = 'E'
    · cases cs with
      | nil =>
        simp only [lexExp, if_pos he] at h
        cases h
        rfl
      | cons s cs2 =>
        by_cases hs : s = '+' || s = '-'
        · cases cs2 with
          | nil =>
            simp only [lexExp, if_pos he, if_pos hs] at h
            cases h
            rfl
          | cons d cs3 =>
            by_cases hd : isDigitCh d = true
            · simp only [lexExp, if_pos he, if_pos hs, if_pos hd] at h
              cases htd : takeDigits cs3 with
              | mk ds r2 =>
                rw [htd] at h
                cases h
                have := takeDigits_inv cs3 ds _ htd
                simp [expTokenWf, he, hs, hd, this.1]
            · simp only [lexExp, if_pos he, if_pos hs, if_neg hd] at h
              cases h
              rfl
        · by_cases hd : isDigitCh s = true
          · simp only [lexExp, if_pos he, if_neg hs, if_pos hd] at h
            cases htd : takeDigits cs2 with
            | mk ds r2 =>
              rw [htd] at h
              cases h
              have := takeDigits_inv cs2 ds _ htd
              simp [expTokenWf, he, hs, hd, this.1]
          · simp only [lexExp, if_pos he, if_neg hs, if_neg hd] at h
            cases h
            rfl
    · simp only [lexExp, if_neg he] at h
      cases h
      rfl

theorem lexNumTail_inv {cs tok r : List Char} (h : lexNumTail cs = some (tok, r)) :
    ∃ ip fp ep, tok = ip ++ fp ++ ep ∧ intTokenWf ip = true ∧ fracTokenWf fp = true ∧
      expTokenWf ep = true := by
  rw [lexNumTail] at h
  rcases hi : lexInt cs with _ | ⟨⟨ip, cs2⟩⟩
  · rw [hi] at h; cases h
  · rw [hi] at h
    cases hf : lexFrac cs2 with
    | mk fp cs3 =>
      cases hx : lexExp cs3 with
      | mk ep cs4 =>
        simp only [hf, hx] at h
        injection h with h
        cases h
        exact ⟨ip, fp, ep, rfl, lexInt_inv cs ip cs2 hi, lexFrac_inv cs2 fp cs3 hf,
          lexExp_inv cs3 ep _ hx⟩

theorem lexNumber_inv {cs tok r : List Char} (h : lexNumber cs = some (tok, r)) :
    numDecomp tok := by
  cases cs with
  | nil => simp [lexNumber] at h
  | cons c cs1 =>
    rw [lexNumber] at h
    by_cases hc : c = '-'
    · rw [if_pos hc] at h
      rcases ht : lexNumTail cs1 with _ | ⟨⟨tok2, r2⟩⟩
      · rw [ht] at h; cases h
      · rw [ht] at h
        injection h with h
        cases h
        obtain ⟨ip, fp, ep, rfl, h1, h2, h3⟩ := lexNumTail_inv ht
        exact ⟨['-'], ip, fp, ep, by simp, Or.inr rfl, h1, h2, h3⟩
    · rw [if_neg hc] at h
      obtain ⟨ip, fp, ep, rfl, h1, h2, h3⟩ := lexNumTail_inv h
      exact ⟨[], ip, fp, ep, by simp, Or.inl rfl, h1, h2, h3⟩

theorem numWf_decomp {lit : String} (h : numWf lit = true) : numDecomp lit.data := by
  rw [numWf] at h
  exact lexNumber_inv (of_decide_eq_true h)

theorem numWf_of_lex {cs tok r : List Char} (h : lexNumber cs = some (tok, r)) :
    numWf ⟨tok⟩ = true := by
  rw [numWf]
  apply decide_eq_true
  have hd := lexNumber_inv h
  have : lexNumber (tok ++ []) = some (tok, []) := lexNumber_append hd rfl
  simpa using this

theorem hexVal_hexDigit : ∀ d : Nat, d < 16 → hexVal (hexDigit d) = some d := by decide

theorem parseStringBody_append : ∀ (cs rest : List Char),
    parseStringBody (escapeChars cs ++ ('"' :: rest)) = some (cs, rest)
  | [], rest => by
    show parseStringBody ('"' :: rest) = some ([], rest)
    rw [parseStringBody.eq_def]
    simp
  | c :: cs, rest => by
    have ih := parseStringBody_append cs rest
    rw [show escapeChars (c :: cs) = escChar c ++ escapeChars cs from rfl, List.append_assoc]
    by_cases h1 : c = '"'
    · subst h1
      rw [show escChar '"' = ['\\', '"'] from rfl]
      rw [parseStringBody.eq_def]
      simp [escCode, ih]
    · by_cases h2 : c = '\\'
      · subst h2
        rw [show escChar '\\' = ['\\', '\\'] from rfl]
        rw [parseStringBody.eq_def]
        simp [escCode, ih]
      · by_cases h3 : c = '\n'
        · subst h3
          rw [show escChar '\n' = ['\\', 'n'] from rfl]
          rw [parseStringBody.eq_def]
          simp [escCode, ih]
        · by_cases h4 : c = '\r'
          · subst h4
            rw [show escChar '\r' = ['\\', 'r'] from rfl]
            rw [parseStringBody.eq_def]
            simp [escCode, ih]
          · by_cases h5 : c = '\t'
            · subst h5
              rw [show escChar '\t' = ['\\', 't'] from rfl]
              rw [parseStringBody.eq_def]
              simp [escCode, ih]
            · by_cases h6 : c.toNat < 32
              · have hdiv : c.toNat / 16 < 16 := by omega
                have hmod : c.toNat % 16 < 16 := by omega
                rw [show escChar c = ['\\', 'u', '0', '0', hexDigit (c.toNat / 16),
                  hexDigit (c.toNat % 16)] from by
                    rw [escChar, if_neg h1, if_neg h2, if_neg h3, if_neg h4, if_neg h5,
                      if_pos h6]]
                rw [parseStringBody.eq_def]
                simp only [List.cons_append, List.nil_append]
                simp [hexVal_hexDigit _ hdiv, hexVal_hexDigit _ hmod, ih,
                  show hexVal '0' = some 0 by decide]
                rw [show c.toNat / 16 * 16 + c.toNat % 16 = c.toNat by omega,
                  Char.ofNat_toNat]
              · by_cases h7 : c.toNat = 0x2028
                · have hc : c = Char.ofNat 0x2028 := by
                    rw [← h7, Char.ofNat_toNat]
                  subst hc
                  rw [show escChar (Char.ofNat 0x2028) = ['\\', 'u', '2', '0', '2', '8']
                    from rfl]
                  rw [parseStringBody.eq_def]
                  simp [hexVal, ih]
                · by_cases h8 : c.toNat = 0x2029
                  · have hc : c = Char.ofNat 0x2029 := by
                      rw [← h8, Char.ofNat_toNat]
                    subst hc
                    rw [show escChar (Char.ofNat 0x2029) = ['\\', 'u', '2', '0', '2', '9']
                      from rfl]
                    rw [parseStringBody.eq_def]
                    simp [hexVal, ih]
                  · rw [show escChar c = [c] from by
                      rw [escChar, if_neg h1, if_neg h2, if_neg h3, if_neg h4, if_neg h5,
                        if_neg h6, if_neg h7, if_neg h8]]
                    rw [show [c] ++ (escapeChars cs ++ '"' :: rest) =
                      c :: (escapeChars cs ++ '"' :: rest) from rfl]
                    rw [parseStringBody.eq_def]
                    simp only [if_neg h1, if_neg h2, if_neg (show ¬ c.toNat < 32 from h6), ih]

theorem wfElems_of_forall : ∀ xs : List Json, (∀ x ∈ xs, wfJ x = true) → wfElems xs = true
  | [], _ => rfl
  | x :: xs, h => by
    rw [wfElems, Bool.and_eq_true]
    exact ⟨h x (List.mem_cons_self _ _),
      wfElems_of_forall xs fun y hy => h y (List.mem_cons_of_mem _ hy)⟩

theorem wfMembers_of_forall : ∀ l : List (String × Json),
    (∀ kv ∈ l, wfJ kv.2 = true) → wfMembers l = true
  | [], _ => rfl
  | (k, v) :: l, h => by
    rw [wfMembers, Bool.and_eq_true]
    exact ⟨h (k, v) (List.mem_cons_self _ _),
      wfMembers_of_forall l fun y hy => h y (List.mem_cons_of_mem _ hy)⟩

theorem foldl_insertKV_wf : ∀ (ps acc : List (String × Json)),
    sortedKeys acc = true → wfMembers acc = true → (∀ kv ∈ ps, wfJ kv.2 = true) →
    sortedKeys (List.foldl (fun a kv => insertKV kv.1 kv.2 a) acc ps) = true ∧
    wfMembers (List.foldl (fun a kv => insertKV kv.1 kv.2 a) acc ps) = true
  | [], acc, hs, hw, _ => ⟨hs, hw⟩
  | (k, v) :: ps, acc, hs, hw, hp => by
    simp only [List.foldl]
    exact foldl_insertKV_wf ps (insertKV k v acc)
      (insertKV_sorted acc k v hs)
      (wfMembers_insertKV acc k v (hp (k, v) (List.mem_cons_self _ _)) hw)
      (fun kv hkv => hp kv (List.mem_cons_of_mem _ hkv))

theorem mkObj_wf {ps : List (String × Json)} (h : ∀ kv ∈ ps, wfJ kv.2 = true) :
    wfJ (.obj (mkObj ps)) = true := by
  have hh := foldl_insertKV_wf ps [] rfl rfl h
  rw [wfJ, Bool.and_eq_true]
  exact hh

theorem parse_wf_aux : ∀ fuel : Nat,
    (∀ cs j r0, parseVal fuel cs = some (j, r0) → wfJ j = true) ∧
    (∀ cs kv r0, parseMember fuel cs = some (kv, r0) → wfJ kv.2 = true) ∧
    (∀ cs ps r0, parseMembers fuel cs = some (ps, r0) → ∀ kv ∈ ps, wfJ kv.2 = true) ∧
    (∀ cs xs r0, parseElems fuel cs = some (xs, r0) → ∀ x ∈ xs, wfJ x = true) := by
  intro fuel
  induction fuel with
  | zero =>
    refine ⟨?_, ?_, ?_, ?_⟩ <;> intro cs a r0 h <;>
      simp [parseVal, parseMember, parseMembers, parseElems] at h
  | succ fuel ih =>
    obtain ⟨ihV, ihM, ihMs, ihE⟩ := ih
    refine ⟨?_, ?_, ?_, ?_⟩
    · intro cs j r0 h
      simp only [parseVal] at h
      split at h
      · cases h
      · split at h
        · split at h
          · cases h; rfl
          · cases h
        · split at h
          · split at h
            · cases h; rfl
            · cases h
          · split at h
            · split at h
              · cases h; rfl
              · cases h
            · split at h
              · split at h
                · cases h; rfl
                · cases h
              · split at h
                · split at h
                  · cases h
                  · split at h
                    · cases h; rfl
                    · split at h
                      · rename_i x r3 hV
                        split at h
                        · rename_i xs r4 hE
                          cases h
                          rw [wfJ]
                          rw [wfElems, Bool.and_eq_true]
                          exact ⟨ihV _ _ _ hV, wfElems_of_forall xs (ihE _ _ _ hE)⟩
                        · cases h
                      · cases h
                · split at h
                  · split at h
                    · cases h
                    · split at h
                      · cases h; rfl
                      · split at h
                        · rename_i kv r3 hM
                          split at h
                          · rename_i ps r4 hMs
                            cases h
                            apply mkObj_wf
                            intro kv2 hkv2
                            rcases List.mem_cons.mp hkv2 with he | ht
                            · subst he
                              exact ihM _ _ _ hM
                            · exact ihMs _ _ _ hMs kv2 ht
                          · cases h
                        · cases h
                  · split at h
                    · rename_i tok r2 hL
                      cases h
                      rw [wfJ]
                      exact numWf_of_lex hL
                    · cases h
    · intro cs kv r0 h
      simp only [parseMember] at h
      split at h
      · cases h
      · split at h
        · split at h
          · rename_i k r2 hS
            split at h
            · cases h
            · split at h
              · split at h
                · rename_i v r4 hV
                  cases h
                  exact ihV _ _ _ hV
                · cases h
              · cases h
          · cases h
        · cases h
    · intro cs ps r0 h
      simp only [parseMembers] at h
      split at h
      · cases h
      · split at h
        · cases h
          intro kv hkv
          cases hkv
        · split at h
          · split at h
            · rename_i kv2 r2 hM
              split at h
              · rename_i ps2 r3 hMs
                cases h
                intro kv hkv
                rcases List.mem_cons.mp hkv with he | ht
                · subst he
                  exact ihM _ _ _ hM
                · exact ihMs _ _ _ hMs kv ht
              · cases h
            · cases h
          · cases h
    · intro cs xs r0 h
      simp only [parseElems] at h
      split at h
      · cases h
      · split at h
        · cases h
          intro x hx
          cases hx
        · split at h
          · split at h
            · rename_i x r2 hV
              split at h
              · rename_i xs2 r3 hE
                cases h
                intro y hy
                rcases List.mem_cons.mp hy with he | ht
                · subst he
                  exact ihV _ _ _ hV
                · exact ihE _ _ _ hE y ht
              · cases h
            · cases h
          · cases h

theorem parseVal_wf {fuel : Nat} {cs : List Char} {j : Json} {r0 : List Char}
    (h : parseVal fuel cs = some (j, r0)) : wfJ j = true :=
  (parse_wf_aux fuel).1 cs j r0 h

theorem parse_wf {s : String} {j : Json} (h : Json.parse s = some j) : wfJ j = true := by
  rw [Json.parse] at h
  split at h
  · rename_i j2 rest hp
    split at h
    · cases h
      exact parseVal_wf hp
    · cases h
  · cases h

theorem sizeJ_pos : ∀ j : Json, 1 ≤ sizeJ j
  | .null => le_refl 1
  | .bool _ => le_refl 1
  | .str _ => le_refl 1
  | .num _ => le_refl 1
  | .arr xs => by rw [sizeJ]; omega
  | .obj kvs => by rw [sizeJ]; omega

theorem skipWs_cons {c : Char} (h : isWs c = false) (t : List Char) :
    skipWs (c :: t) = c :: t := by
  simp [skipWs, h]

theorem digit_not_ws {c : Char} (h : isDigitCh c = true) : isWs c = false := by
  have h1 : ¬ c = ' ' := fun he => absurd h (by subst he; decide)
  have h2 : ¬ c = '\t' := fun he => absurd h (by subst he; decide)
  have h3 : ¬ c = '\n' := fun he => absurd h (by subst he; decide)
  have h4 : ¬ c = '\x0d' := fun he => absurd h (by subst he; decide)
  simp [isWs, h1, h2, h3, h4]

theorem stringMk_data (s : String) : (⟨s.data⟩ : String) = s := rfl

theorem numStop_encMembers : ∀ (ps : List (String × Json)) (rest : List Char),
    numStop (encMembers ps ++ ('}' :: rest)) = true
  | [], rest => rfl
  | (k, v) :: ps, rest => rfl

theorem numStop_encElems : ∀ (xs : List Json) (rest : List Char),
    numStop (encElems xs ++ (']' :: rest)) = true
  | [], rest => rfl
  | x :: xs, rest => rfl

theorem intTokenWf_head {ip : List Char} (h : intTokenWf ip = true) :
    ∃ c cs, ip = c :: cs ∧ isDigitCh c = true := by
  cases ip with
  | nil => simp [intTokenWf] at h
  | cons c cs =>
    refine ⟨c, cs, rfl, ?_⟩
    rw [intTokenWf] at h
    by_cases hc : c = '0'
    · subst hc; decide
    · rw [if_neg hc, Bool.and_eq_true] at h
      exact h.1

theorem encodeJ_head : ∀ j : Json, wfJ j = true →
    ∃ c t, encodeJ j = c :: t ∧ isWs c = false ∧ ¬ c = ']' ∧ ¬ c = '}'
  | .null, _ => ⟨'n', _, rfl, by decide, by decide, by decide⟩
  | .bool true, _ => ⟨'t', _, rfl, by decide, by decide, by decide⟩
  | .bool false, _ => ⟨'f', _, rfl, by decide, by decide, by decide⟩
  | .str s, _ => ⟨'"', _, rfl, by decide, by decide, by decide⟩
  | .arr xs, _ => ⟨'[', _, rfl, by decide, by decide, by decide⟩
  | .obj kvs, _ => ⟨'{', _, rfl, by decide, by decide, by decide⟩
  | .num lit, hw => by
    rw [show wfJ (.num lit) = numWf lit from rfl] at hw
    obtain ⟨sgn, ip, fp, ep, hlit, hsgn, hip, hfp, hep⟩ := numWf_decomp hw
    obtain ⟨c, cs, hipc, hdc⟩ := intTokenWf_head hip
    rcases hsgn with rfl | rfl
    · refine ⟨c, cs ++ fp ++ ep, ?_, digit_not_ws hdc, digit_ne hdc (by decide),
        digit_ne hdc (by decide)⟩
      rw [show encodeJ (.num lit) = lit.data from rfl, hlit, hipc]
      simp
    · refine ⟨'-', ip ++ fp ++ ep, ?_, by decide, by decide, by decide⟩
      rw [show encodeJ (.num lit) = lit.data from rfl, hlit]
      simp

theorem roundtrip_aux : ∀ n : Nat,
    (∀ j rest fuel, sizeJ j ≤ n → wfJ j = true → numStop rest = true → sizeJ j ≤ fuel →
      parseVal fuel (encodeJ j ++ rest) = some (j, rest)) ∧
    (∀ (k : String) (v : Json) rest fuel, sizeJ v + 1 ≤ n → wfJ v = true →
      numStop rest = true → sizeJ v + 1 ≤ fuel →
      parseMember fuel ((encStr k ++ ':' :: encodeJ v) ++ rest) = some ((k, v), rest)) ∧
    (∀ ps rest fuel, sizeMembers ps + 1 ≤ n → wfMembers ps = true →
      sizeMembers ps + 1 ≤ fuel →
      parseMembers fuel (encMembers ps ++ ('}' :: rest)) = some (ps, rest)) ∧
    (∀ xs rest fuel, sizeElems xs + 1 ≤ n → wfElems xs = true →
      sizeElems xs + 1 ≤ fuel →
      parseElems fuel (encElems xs ++ (']' :: rest)) = some (xs, rest)) := by
  intro n
  induction n with
  | zero =>
    refine ⟨?_, ?_, ?_, ?_⟩
    · intro j rest fuel hn
      have := sizeJ_pos j
      omega
    · intro k v rest fuel hn
      omega
    · intro ps rest fuel hn
      omega
    · intro xs rest fuel hn
      omega
  | succ n ihn =>
    obtain ⟨ihV, ihM, ihMs, ihE⟩ := ihn
    refine ⟨?_, ?_, ?_, ?_⟩
    · intro j rest fuel hn hw hstop hfuel
      cases fuel with
      | zero =>
        have := sizeJ_pos j
        omega
      | succ f =>
        cases j with
        | null =>
          rw [show encodeJ Json.null ++ rest = 'n' :: ('u' :: 'l' :: 'l' :: rest) from rfl]
          simp only [parseVal]
          rw [skipWs_cons (by decide)]
          simp
        | bool b =>
          cases b with
          | true =>
            rw [show encodeJ (Json.bool true) ++ rest =
              't' :: ('r' :: 'u' :: 'e' :: rest) from rfl]
            simp only [parseVal]
            rw [skipWs_cons (by decide)]
            simp
          | false =>
            rw [show encodeJ (Json.bool false) ++ rest =
              'f' :: ('a' :: 'l' :: 's' :: 'e' :: rest) from rfl]
            simp only [parseVal]
            rw [skipWs_cons (by decide)]
            simp
        | str s =>
          rw [show encodeJ (Json.str s) ++ rest =
            '"' :: (escapeChars s.data ++ ('"' :: rest)) from by
              simp [encodeJ, encStr]]
          simp only [parseVal]
          rw [skipWs_cons (by decide)]
          simp [parseStringBody_append, stringMk_data]
        | num lit =>
          rw [show wfJ (.num lit) = numWf lit from rfl] at hw
          have hdec := numWf_decomp hw
          obtain ⟨sgn, ip, fp, ep, hlit, hsgn, hip, hfp, hep⟩ := hdec
          have hlex : lexNumber (lit.data ++ rest) = some (lit.data, rest) :=
            lexNumber_append ⟨sgn, ip, fp, ep, hlit, hsgn, hip, hfp, hep⟩ hstop
          obtain ⟨c, t, hld, hcls⟩ :
              ∃ c t, lit.data = c :: t ∧ (c = '-' ∨ isDigitCh c = true) := by
            obtain ⟨c2, cs2, hipc, hdc⟩ := intTokenWf_head hip
            rcases hsgn with rfl | rfl
            · refine ⟨c2, cs2 ++ fp ++ ep, ?_, Or.inr hdc⟩
              rw [hlit, hipc]
              simp
            · refine ⟨'-', ip ++ fp ++ ep, ?_, Or.inl rfl⟩
              rw [hlit]
              simp
          have hnws : isWs c = false := by
            rcases hcls with rfl | hd2
            · decide
            · exact digit_not_ws hd2
          have hn1 : ¬ c = 'n' := by
            rcases hcls with rfl | hd2
            · decide
            · exact digit_ne hd2 (by decide)
          have hn2 : ¬ c = 't' := by
            rcases hcls with rfl | hd2
            · decide
            · exact digit_ne hd2 (by decide)
          have hn3 : ¬ c = 'f' := by
            rcases hcls with rfl | hd2
            · decide
            · exact digit_ne hd2 (by decide)
          have hn4 : ¬ c = '"' := by
            rcases hcls with rfl | hd2
            · decide
            · exact digit_ne hd2 (by decide)
          have hn5 : ¬ c = '[' := by
            rcases hcls with rfl | hd2
            · decide
            · exact digit_ne hd2 (by decide)
          have hn6 : ¬ c = '{' := by
            rcases hcls with rfl | hd2
            · decide
            · exact digit_ne hd2 (by decide)
          rw [show encodeJ (Json.num lit) ++ rest = c :: (t ++ rest) from by
            rw [show encodeJ (Json.num lit) = lit.data from rfl, hld]; rfl]
          simp only [parseVal]
          rw [skipWs_cons hnws]
          simp only [if_neg hn1, if_neg hn2, if_neg hn3, if_neg hn4, if_neg hn5, if_neg hn6]
          rw [show c :: (t ++ rest) = lit.data ++ rest from by rw [hld]; rfl]
          rw [hlex]
        | arr xs =>
          cases xs with
          | nil =>
            rw [show encodeJ (Json.arr []) ++ rest = '[' :: (']' :: rest) from rfl]
            simp only [parseVal]
            rw [skipWs_cons (by decide)]
            simp only [reduceIte, if_neg (by decide : ¬ '[' = 'n'),
              if_neg (by decide : ¬ '[' = 't'), if_neg (by decide : ¬ '[' = 'f'),
              if_neg (by decide : ¬ '[' = '"')]
            rw [skipWs_cons (by decide)]
            simp
          | cons x xs =>
            rw [show wfJ (.arr (x :: xs)) = wfElems (x :: xs) from rfl, wfElems,
              Bool.and_eq_true] at hw
            rw [show sizeJ (.arr (x :: xs)) = 1 + (1 + sizeJ x + sizeElems xs) from rfl]
              at hn hfuel
            have hpx := sizeJ_pos x
            obtain ⟨c2, t2, hhead, hws2, hnbr, _⟩ := encodeJ_head x hw.1
            have hin : encodeJ (Json.arr (x :: xs)) ++ rest =
                '[' :: (encodeJ x ++ (encElems xs ++ (']' :: rest))) := by
              rw [show encodeJ (Json.arr (x :: xs)) =
                '[' :: ((encodeJ x ++ encElems xs) ++ [']']) from rfl]
              simp
            rw [hin]
            simp only [parseVal]
            rw [skipWs_cons (by decide)]
            simp only [reduceIte, if_neg (by decide : ¬ '[' = 'n'),
              if_neg (by decide : ¬ '[' = 't'), if_neg (by decide : ¬ '[' = 'f'),
              if_neg (by decide : ¬ '[' = '"')]
            rw [show encodeJ x ++ (encElems xs ++ (']' :: rest)) =
              c2 :: (t2 ++ (encElems xs ++ (']' :: rest))) from by rw [hhead]; rfl]
            rw [skipWs_cons hws2]
            simp only [if_neg hnbr]
            rw [show c2 :: (t2 ++ (encElems xs ++ (']' :: rest))) =
              encodeJ x ++ (encElems xs ++ (']' :: rest)) from by rw [hhead]; rfl]
            simp only [ihV x (encElems xs ++ (']' :: rest)) f (by omega) hw.1
              (numStop_encElems xs rest) (by omega),
              ihE xs rest f (by omega) hw.2 (by omega)]
        | obj kvs =>
          cases kvs with
          | nil =>
            rw [show encodeJ (Json.obj []) ++ rest = '{' :: ('}' :: rest) from rfl]
            simp only [parseVal]
            rw [skipWs_cons (by decide)]
            simp only [reduceIte, if_neg (by decide : ¬ '{' = 'n'),
              if_neg (by decide : ¬ '{' = 't'), if_neg (by decide : ¬ '{' = 'f'),
              if_neg (by decide : ¬ '{' = '"'), if_neg (by decide : ¬ '{' = '[')]
            rw [skipWs_cons (by decide)]
            simp
          | cons kv ps =>
            obtain ⟨k, v⟩ := kv
            rw [show wfJ (.obj ((k, v) :: ps)) =
              (sortedKeys ((k, v) :: ps) && wfMembers ((k, v) :: ps)) from rfl,
              Bool.and_eq_true] at hw
            have hwm := hw.2
            rw [wfMembers, Bool.and_eq_true] at hwm
            rw [show sizeJ (.obj ((k, v) :: ps)) =
              1 + (1 + sizeJ v + sizeMembers ps) from rfl] at hn hfuel
            have hpv := sizeJ_pos v
            have hin : encodeJ (Json.obj ((k, v) :: ps)) ++ rest =
                '{' :: ((encStr k ++ ':' :: encodeJ v) ++
                  (encMembers ps ++ ('}' :: rest))) := by
              rw [show encodeJ (Json.obj ((k, v) :: ps)) =
                '{' :: (((encStr k ++ ':' :: encodeJ v) ++ encMembers ps) ++ ['}'])
                from rfl]
              simp
            rw [hin]
            simp only [parseVal]
            rw [skipWs_cons (by decide)]
            simp only [reduceIte, if_neg (by decide : ¬ '{' = 'n'),
              if_neg (by decide : ¬ '{' = 't'), if_neg (by decide : ¬ '{' = 'f'),
              if_neg (by decide : ¬ '{' = '"'), if_neg (by decide : ¬ '{' = '[')]
            rw [show (encStr k ++ ':' :: encodeJ v) ++ (encMembers ps ++ ('}' :: rest)) =
              '"' :: ((escapeChars k.data ++ ['"']) ++ (':' :: encodeJ v) ++
                (encMembers ps ++ ('}' :: rest))) from by
                  rw [show encStr k = '"' :: (escapeChars k.data ++ ['"']) from rfl]
                  simp]
            rw [skipWs_cons (by decide)]
            simp only [if_neg (by decide : ¬ '"' = '}')]
            rw [show '"' :: ((escapeChars k.data ++ ['"']) ++ (':' :: encodeJ v) ++
              (encMembers ps ++ ('}' :: rest))) =
              (encStr k ++ ':' :: encodeJ v) ++ (encMembers ps ++ ('}' :: rest)) from by
                rw [show encStr k = '"' :: (escapeChars k.data ++ ['"']) from rfl]
                simp]
            simp only [ihM k v (encMembers ps ++ ('}' :: rest)) f (by omega) hwm.1
              (numStop_encMembers ps rest) (by omega),
              ihMs ps rest f (by omega) hwm.2 (by omega)]
            rw [mkObj_sorted_id hw.1]
    · intro k v rest fuel hn hw hstop hfuel
      cases fuel with
      | zero => omega
      | succ f =>
        have hin : (encStr k ++ ':' :: encodeJ v) ++ rest =
            '"' :: (escapeChars k.data ++ ('"' :: (':' :: (encodeJ v ++ rest)))) := by
          rw [show encStr k = '"' :: (escapeChars k.data ++ ['"']) from rfl]
          simp
        rw [hin]
        simp only [parseMember]
        rw [skipWs_cons (by decide)]
        simp only [reduceIte, parseStringBody_append k.data (':' :: (encodeJ v ++ rest))]
        rw [skipWs_cons (by decide)]
        simp only [reduceIte, ihV v rest f (by omega) hw hstop (by omega), stringMk_data]
    · intro ps rest fuel hn hw hfuel
      cases fuel with
      | zero => omega
      | succ f =>
        cases ps with
        | nil =>
          rw [show encMembers [] ++ ('}' :: rest) = '}' :: rest from rfl]
          simp only [parseMembers]
          rw [skipWs_cons (by decide)]
          simp
        | cons kv ps =>
          obtain ⟨k, v⟩ := kv
          rw [wfMembers, Bool.and_eq_true] at hw
          rw [show sizeMembers ((k, v) :: ps) = 1 + sizeJ v + sizeMembers ps from rfl]
            at hn hfuel
          have hin : encMembers ((k, v) :: ps) ++ ('}' :: rest) =
              ',' :: ((encStr k ++ ':' :: encodeJ v) ++ (encMembers ps ++ ('}' :: rest))) := by
            rw [show encMembers ((k, v) :: ps) =
              ',' :: ((encStr k ++ ':' :: encodeJ v) ++ encMembers ps) from rfl]
            simp
          rw [hin]
          simp only [parseMembers]
          rw [skipWs_cons (by decide)]
          simp only [reduceIte, if_neg (by decide : ¬ ',' = '}'),
            ihM k v (encMembers ps ++ ('}' :: rest)) f (by omega) hw.1
              (numStop_encMembers ps rest) (by omega),
            ihMs ps rest f (by omega) hw.2 (by omega)]
    · intro xs rest fuel hn hw hfuel
      cases fuel with
      | zero => omega
      | succ f =>
        cases xs with
        | nil =>
          rw [show encElems [] ++ (']' :: rest) = ']' :: rest from rfl]
          simp only [parseElems]
          rw [skipWs_cons (by decide)]
          simp
        | cons x xs =>
          rw [wfElems, Bool.and_eq_true] at hw
          rw [show sizeElems (x :: xs) = 1 + sizeJ x + sizeElems xs from rfl] at hn hfuel
          have hin : encElems (x :: xs) ++ (']' :: rest) =
              ',' :: (encodeJ x ++ (encElems xs ++ (']' :: rest))) := by
            rw [show encElems (x :: xs) = ',' :: (encodeJ x ++ encElems xs) from rfl]
            simp
          rw [hin]
          simp only [parseElems]
          rw [skipWs_cons (by decide)]
          simp only [reduceIte, if_neg (by decide : ¬ ',' = ']'),
            ihV x (encElems xs ++ (']' :: rest)) f (by omega) hw.1
              (numStop_encElems xs rest) (by omega),
            ihE xs rest f (by omega) hw.2 (by omega)]

mutual

theorem sizeJ_le_len : ∀ j : Json, wfJ j = true → sizeJ j ≤ (encodeJ j).length
  | .null, _ => by simp [sizeJ, encodeJ]
  | .bool true, _ => by simp [sizeJ, encodeJ]
  | .bool false, _ => by simp [sizeJ, encodeJ]
  | .str s, _ => by simp [sizeJ, encodeJ, encStr]
  | .num lit, hw => by
    rw [show wfJ (.num lit) = numWf lit from rfl] at hw
    obtain ⟨sgn, ip, fp, ep, hlit, hsgn, hip, hfp, hep⟩ := numWf_decomp hw
    obtain ⟨c, cs, hipc, _⟩ := intTokenWf_head hip
    rw [show encodeJ (.num lit) = lit.data from rfl, sizeJ, hlit, hipc]
    simp
    omega
  | .arr xs, hw => by
    rw [show wfJ (.arr xs) = wfElems xs from rfl] at hw
    cases xs with
    | nil => simp [sizeJ, sizeElems, encodeJ, encElems0]
    | cons x xs =>
      rw [wfElems, Bool.and_eq_true] at hw
      have h1 := sizeJ_le_len x hw.1
      have h2 := sizeElems_le_len xs hw.2
      rw [sizeJ, sizeElems, show encodeJ (.arr (x :: xs)) =
        '[' :: ((encodeJ x ++ encElems xs) ++ [']']) from rfl]
      simp
      omega
  | .obj kvs, hw => by
    rw [show wfJ (.obj kvs) = (sortedKeys kvs && wfMembers kvs) from rfl,
      Bool.and_eq_true] at hw
    cases kvs with
    | nil => simp [sizeJ, sizeMembers, encodeJ, encMembers0]
    | cons kv ps =>
      obtain ⟨k, v⟩ := kv
      have hwm := hw.2
      rw [wfMembers, Bool.and_eq_true] at hwm
      have h1 := sizeJ_le_len v hwm.1
      have h2 := sizeMembers_le_len ps hwm.2
      rw [sizeJ, sizeMembers, show encodeJ (.obj ((k, v) :: ps)) =
        '{' :: (((encStr k ++ ':' :: encodeJ v) ++ encMembers ps) ++ ['}']) from rfl]
      simp
      omega

theorem sizeElems_le_len : ∀ xs : List Json, wfElems xs = true →
    sizeElems xs ≤ (encElems xs).length
  | [], _ => by simp [sizeElems, encElems]
  | x :: xs, hw => by
    rw [wfElems, Bool.and_eq_true] at hw
    have h1 := sizeJ_le_len x hw.1
    have h2 := sizeElems_le_len xs hw.2
    rw [sizeElems, show encElems (x :: xs) = ',' :: (encodeJ x ++ encElems xs) from rfl]
    simp
    omega

theorem sizeMembers_le_len : ∀ l : List (String × Json), wfMembers l = true →
    sizeMembers l ≤ (encMembers l).length
  | [], _ => by simp [sizeMembers, encMembers]
  | (k, v) :: ps, hw => by
    rw [wfMembers, Bool.and_eq_true] at hw
    have h1 := sizeJ_le_len v hw.1
    have h2 := sizeMembers_le_len ps hw.2
    rw [sizeMembers, show encMembers ((k, v) :: ps) =
      ',' :: ((encStr k ++ ':' :: encodeJ v) ++ encMembers ps) from rfl]
    simp
    omega

end

theorem parseVal_encodeJ {j : Json} {rest : List Char} {fuel : Nat} (hw : wfJ j = true)
    (hstop : numStop rest = true) (hfuel : sizeJ j ≤ fuel) :
    parseVal fuel (encodeJ j ++ rest) = some (j, rest) :=
  (roundtrip_aux (sizeJ j)).1 j rest fuel le_rfl hw hstop hfuel

theorem parse_encode {j : Json} (hw : wfJ j = true) : Json.parse (encode j) = some j := by
  rw [Json.parse]
  have hdata : (encode j).data = encodeJ j ++ ['\n'] := rfl
  have hlen : (encode j).length = (encodeJ j).length + 1 := by
    rw [show (encode j).length = (encode j).data.length from rfl, hdata]
    simp
  rw [hdata, hlen]
  rw [parseVal_encodeJ hw (by decide) (by have := sizeJ_le_len j hw; omega)]
  simp [skipWs, isWs]

theorem scrubBytes_run {b : String} {m : genMap} {scrub : genMap → Except ScrubError genMap}
    (hk : hasKeywords b = true) (hp : Json.parse b = some (.obj m)) :
    scrubBytes true b scrub =
      (match scrub m with
       | .error e => ("", some e)
       | .ok m2 => (encode (.obj m2), none)) := by
  simp only [scrubBytes, hk, hp]
  simp

theorem scrubBytes_passthrough {en : Bool} {b : String}
    {scrub : genMap → Except ScrubError genMap}
    (h : en = false ∨ hasKeywords b = false ∨ Json.parse b = none) :
    scrubBytes en b scrub = (b, none) := by
  simp only [scrubBytes]
  rcases h with rfl | h | h
  · simp
  · simp [h]
  · simp [h]

theorem SPP_passthrough {en : Bool} {s : String}
    (h : en = false ∨ hasKeywords s = false ∨ Json.parse s = none) :
    ScrubProcessParameters en s = (s, none) := by
  simp only [ScrubProcessParameters]
  rcases h with rfl | h | h
  · simp
  · simp [h]
  · simp [h]

theorem SPP_run {s : String} {j : Json} {pp : ProcessParameters}
    (hk : hasKeywords s = true) (hp : Json.parse s = some j) (hd : decodePP j = some pp) :
    ScrubProcessParameters true s =
      (encode (ppJson { pp with
        Environment := [(ScrubbedReplacement, ScrubbedReplacement)] }), none) := by
  simp only [ScrubProcessParameters, hk, hp, hd]
  simp

theorem SPP_decode_fail {s : String} {j : Json}
    (hk : hasKeywords s = true) (hp : Json.parse s = some j) (hd : decodePP j = none) :
    ScrubProcessParameters true s = ("", some ScrubError.decodeError) := by
  simp only [ScrubProcessParameters, hk, hp, hd]
  simp

theorem decodeEnvEntries_map : ∀ env : List (String × String),
    decodeEnvEntries (env.map fun e => (e.1, Json.str e.2)) = some env
  | [] => rfl
  | (a, b) :: t => by
    simp only [List.map_cons, decodeEnvEntries, decodeEnvEntries_map t]

theorem decodePP_ppJson (pp : ProcessParameters) : decodePP (ppJson pp) = some pp := by
  obtain ⟨cl, env⟩ := pp
  have hne : ¬ ("CommandLine" : String) = "Environment" := by decide
  have hne2 : ¬ ("Environment" : String) = "CommandLine" := by decide
  by_cases hcl : cl = ""
  · by_cases henv : env.isEmpty = true
    · have he : env = [] := List.isEmpty_iff.mp henv
      subst hcl he
      simp [ppJson, decodePP, lookupKV]
    · have hl : ppJson ⟨cl, env⟩ =
          .obj [("Environment", Json.obj (env.map fun e => (e.1, Json.str e.2)))] := by
        simp [ppJson, hcl, henv]
      subst hcl
      rw [hl]
      simp [decodePP, lookupKV, hne, decodeEnvEntries_map]
  · by_cases henv : env.isEmpty = true
    · have he : env = [] := List.isEmpty_iff.mp henv
      subst he
      have hl : ppJson ⟨cl, []⟩ = .obj [("CommandLine", Json.str cl)] := by
        simp [ppJson, hcl]
      rw [hl]
      simp [decodePP, lookupKV, hne2]
    · have hl : ppJson ⟨cl, env⟩ =
          .obj [("CommandLine", Json.str cl),
            ("Environment", Json.obj (env.map fun e => (e.1, Json.str e.2)))] := by
        simp [ppJson, hcl, henv]
      rw [hl]
      simp [decodePP, lookupKV, hne, hne2, decodeEnvEntries_map]

theorem wf_ppJson_scrubbed (cl : String) :
    wfJ (ppJson ⟨cl, [(ScrubbedReplacement, ScrubbedReplacement)]⟩) = true := by
  by_cases hcl : cl = ""
  · have hl : ppJson ⟨cl, [(ScrubbedReplacement, ScrubbedReplacement)]⟩ =
        .obj [("Environment", Json.obj [(ScrubbedReplacement,
          Json.str ScrubbedReplacement)])] := by
      simp [ppJson, hcl, ScrubbedReplacement]
    rw [hl]
    decide
  · have hl : ppJson ⟨cl, [(ScrubbedReplacement, ScrubbedReplacement)]⟩ =
        .obj [("CommandLine", Json.str cl),
          ("Environment", Json.obj [(ScrubbedReplacement,
            Json.str ScrubbedReplacement)])] := by
      simp [ppJson, hcl, ScrubbedReplacement]
    rw [hl]
    rw [show wfJ (.obj [("CommandLine", Json.str cl),
      ("Environment", Json.obj [(ScrubbedReplacement, Json.str ScrubbedReplacement)])]) =
      (sortedKeys [("CommandLine", Json.str cl),
        ("Environment", Json.obj [(ScrubbedReplacement, Json.str ScrubbedReplacement)])] &&
       wfMembers [("CommandLine", Json.str cl),
        ("Environment", Json.obj [(ScrubbedReplacement, Json.str ScrubbedReplacement)])])
      from rfl]
    rw [Bool.and_eq_true]
    constructor
    · simp only [sortedKeys]
      decide
    · rw [wfMembers, Bool.and_eq_true]
      exact ⟨rfl, by decide⟩

theorem subseq_contains {l t tail : List Char} (h : ∃ A B, l = A ++ t ++ B) :
    containsSeq (l ++ tail) t = true := by
  obtain ⟨A, B, rfl⟩ := h
  rw [show (A ++ t ++ B) ++ tail = A ++ t ++ (B ++ tail) by simp]
  exact containsSeq_of_append A t (B ++ tail)

theorem subseq_obj_key {kvs : List (String × Json)} {k : String} {v : Json}
    (hmem : (k, v) ∈ kvs) (hesc : escapeChars k.data = k.data) :
    ∃ A B, encodeJ (.obj kvs) = A ++ k.data ++ B := by
  obtain ⟨A2, B2, he⟩ := encodeJ_obj_split hmem
  refine ⟨A2 ++ ['"'], ('"' :: (':' :: encodeJ v)) ++ B2, ?_⟩
  rw [he, show encStr k = '"' :: (k.data ++ ['"']) from by rw [encStr, hesc]]
  simp

theorem subseq_obj_val {kvs : List (String × Json)} {k : String} {v : Json}
    (hmem : (k, v) ∈ kvs) {t : List Char} (h : ∃ A B, encodeJ v = A ++ t ++ B) :
    ∃ A B, encodeJ (.obj kvs) = A ++ t ++ B := by
  obtain ⟨A2, B2, he⟩ := encodeJ_obj_split hmem
  obtain ⟨A, B, hv⟩ := h
  refine ⟨A2 ++ encStr k ++ (':' :: A), B ++ B2, ?_⟩
  rw [he, hv]
  simp

theorem subseq_str {s : String} {t : List Char} (ht : escapeChars t = t)
    (h : ∃ A B, s.data = A ++ t ++ B) : ∃ A B, encodeJ (.str s) = A ++ t ++ B := by
  obtain ⟨A, B, hs⟩ := h
  refine ⟨'"' :: escapeChars A, escapeChars B ++ ['"'], ?_⟩
  rw [show encodeJ (.str s) = '"' :: (escapeChars s.data ++ ['"']) from rfl, hs,
    escapeChars_append, escapeChars_append, ht]
  simp

theorem insertKV_mem (l : List (String × Json)) (k : String) (v : Json) :
    (k, v) ∈ insertKV k v l :=
  lookupKV_mem _ _ _ (lookupKV_insertKV_eq l k v)

theorem scrubBytes_not_obj {b : String} {j : Json}
    {scrub : genMap → Except ScrubError genMap}
    (hk : hasKeywords b = true) (hp : Json.parse b = some j)
    (hno : ∀ m, j ≠ Json.obj m) :
    scrubBytes true b scrub = ("", some ScrubError.decodeError) := by
  simp only [scrubBytes, hk, hp]
  cases j with
  | obj m => exact absurd rfl (hno m)
  | null => simp
  | bool b2 => simp
  | str s2 => simp
  | num l2 => simp
  | arr xs => simp

theorem wf_obj_insert {l : List (String × Json)} {k : String} {v : Json}
    (hl : wfJ (.obj l) = true) (hv : wfJ v = true) :
    wfJ (.obj (insertKV k v l)) = true := by
  rw [show wfJ (.obj l) = (sortedKeys l && wfMembers l) from rfl, Bool.and_eq_true] at hl
  rw [show wfJ (.obj (insertKV k v l)) =
    (sortedKeys (insertKV k v l) && wfMembers (insertKV k v l)) from rfl, Bool.and_eq_true]
  exact ⟨insertKV_sorted l k v hl.1, wfMembers_insertKV l k v hv hl.2⟩

theorem wf_of_index {m mm : genMap} {k : String} (hm : wfJ (.obj m) = true)
    (hi : index m k = some mm) : wfJ (.obj mm) = true := by
  rw [show wfJ (.obj m) = (sortedKeys m && wfMembers m) from rfl, Bool.and_eq_true] at hm
  rw [index] at hi
  split at hi
  · rename_i mm2 hl
    injection hi with hi
    subst hi
    exact wfMembers_of_mem m k (Json.obj mm2) (lookupKV_mem m k _ hl) hm.2
  · cases hi

theorem index_insertKV_eq (l : List (String × Json)) (k : String) (mm : genMap) :
    index (insertKV k (.obj mm) l) k = some mm := by
  rw [index, lookupKV_insertKV_eq]

theorem index_insertKV_ne (l : List (String × Json)) (k k2 : String) (v : Json)
    (hne : k2 ≠ k) : index (insertKV k v l) k2 = index l k2 := by
  rw [index, index, lookupKV_insertKV_ne l k k2 v hne]

theorem isRequestBase_insertKV {m : genMap} {k : String} {v : Json}
    (h1 : ¬ ("ActivityId" : String) = k) (h2 : ¬ ("ContainerId" : String) = k)
    (hb : isRequestBase m = true) : isRequestBase (insertKV k v m) = true := by
  rw [isRequestBase] at hb ⊢
  rw [lookupKV_insertKV_ne m k "ActivityId" v h1, lookupKV_insertKV_ne m k "ContainerId" v h2]
  exact hb

theorem scrubLHS_ok_inv {m m2 : genMap} (h : scrubLinuxHostedSystem m = .ok m2) :
    isRequestBase m = true ∧ ∃ cc oci proc,
      index m "ContainerConfig" = some cc ∧ index cc "OciSpecification" = some oci ∧
      index oci "process" = some proc ∧ (lookupKV proc "env").isSome = true ∧
      m2 = insertKV "ContainerConfig" (.obj (insertKV "OciSpecification"
        (.obj (insertKV "process" (.obj (insertKV "env"
          (.arr [.str ScrubbedReplacement]) proc)) oci)) cc)) m := by
  rw [scrubLinuxHostedSystem] at h
  split at h
  · cases h
  · rename_i hbase
    rw [Bool.not_eq_true', Bool.not_eq_false] at hbase
    refine ⟨hbase, ?_⟩
    split at h
    · rename_i cc hcc
      split at h
      · rename_i oci hoci
        split at h
        · rename_i proc hproc
          split at h
          · rename_i henv
            injection h with h
            exact ⟨cc, oci, proc, hcc, hoci, hproc, henv, h.symm⟩
          · cases h
        · cases h
      · cases h
    · cases h

theorem scrubEP_ok_inv {en : Bool} {m m2 : genMap} (h : scrubExecuteProcess en m = .ok m2) :
    isRequestBase m = true ∧ ∃ st s0 s1,
      index m "Settings" = some st ∧ lookupKV st "ProcessParameters" = some (.str s0) ∧
      ScrubProcessParameters en s0 = (s1, none) ∧
      m2 = insertKV "Settings" (.obj (insertKV "ProcessParameters" (.str s1) st)) m := by
  rw [scrubExecuteProcess] at h
  split at h
  · cases h
  · rename_i hbase
    rw [Bool.not_eq_true', Bool.not_eq_false] at hbase
    refine ⟨hbase, ?_⟩
    split at h
    · rename_i st hst
      split at h
      · rename_i ss hss
        split at h
        · rename_i s0
          split at h
          · rename_i s1 hspp
            injection h with h
            exact ⟨st, s0, s1, hst, hss, hspp, h.symm⟩
          · cases h
        · cases h
      · cases h
    · cases h

theorem pp_update_env (pp : ProcessParameters) (L : List (String × String)) :
    { pp with Environment := L } = ⟨pp.CommandLine, L⟩ := rfl

theorem SPP_success_inv {s out : String}
    (h : ScrubProcessParameters true s = (out, none)) :
    (out = s ∧ (hasKeywords s = false ∨ Json.parse s = none)) ∨
    (∃ j pp, hasKeywords s = true ∧ Json.parse s = some j ∧ decodePP j = some pp ∧
      out = encode (ppJson ⟨pp.CommandLine, [(ScrubbedReplacement, ScrubbedReplacement)]⟩)) := by
  by_cases hk : hasKeywords s = true
  · rcases hp : Json.parse s with _ | j
    · left
      rw [SPP_passthrough (Or.inr (Or.inr hp))] at h
      injection h with h1 _
      exact ⟨h1.symm, Or.inr rfl⟩
    · right
      rcases hd : decodePP j with _ | pp
      · rw [SPP_decode_fail hk hp hd] at h
        injection h with _ h2
        cases h2
      · rw [SPP_run hk hp hd] at h
        injection h with h1 _
        rw [pp_update_env] at h1
        exact ⟨j, pp, hk, rfl, hd, h1.symm⟩
  · left
    have hk2 : hasKeywords s = false := Bool.eq_false_iff.mpr hk
    rw [SPP_passthrough (Or.inr (Or.inl hk2))] at h
    injection h with h1 _
    exact ⟨h1.symm, Or.inl hk2⟩

theorem SPP_idem {s out : String} (h : ScrubProcessParameters true s = (out, none)) :
    ScrubProcessParameters true out = (out, none) := by
  rcases SPP_success_inv h with ⟨rfl, hpass⟩ | ⟨j, pp, hk, hp, hd, rfl⟩
  · exact SPP_passthrough (Or.inr hpass)
  · by_cases hk2 : hasKeywords (encode (ppJson
      ⟨pp.CommandLine, [(ScrubbedReplacement, ScrubbedReplacement)]⟩)) = true
    · have hw := wf_ppJson_scrubbed pp.CommandLine
      have hp2 := parse_encode hw
      have hd2 := decodePP_ppJson ⟨pp.CommandLine, [(ScrubbedReplacement, ScrubbedReplacement)]⟩
      rw [SPP_run hk2 hp2 hd2]
    · exact SPP_passthrough (Or.inr (Or.inl (Bool.eq_false_iff.mpr hk2)))

theorem scrubBytes_error_empty {en : Bool} {b r : String} {e : ScrubError}
    {scrub : genMap → Except ScrubError genMap}
    (h : scrubBytes en b scrub = (r, some e)) : r = "" := by
  rw [scrubBytes] at h
  split at h
  · injection h with _ h2
    cases h2
  · split at h
    · split at h
      · injection h with h1 _
        exact h1.symm
      · injection h with _ h2
        cases h2
    · injection h with h1 _
      exact h1.symm

theorem SPP_error_empty {en : Bool} {s r : String} {e : ScrubError}
    (h : ScrubProcessParameters en s = (r, some e)) : r = "" := by
  rw [ScrubProcessParameters] at h
  split at h
  · injection h with _ h2
    cases h2
  · split at h
    · injection h with h1 _
      exact h1.symm
    · split at h
      · injection h with h1 _
        exact h1.symm
      · injection h with _ h2
        cases h2

/-- C4: each of the three redaction operations returns its input unchanged
with no error whenever scrubbing is disabled, or no keyword ("env" /
"Environment") occurs as a contiguous substring of the raw input, or the
input is not valid JSON. -/
theorem C4_short_circuit_passthrough (en : Bool) (s : String)
    (h : en = false ∨ hasKeywords s = false ∨ Json.parse s = none) :
    ScrubProcessParameters en s = (s, none) ∧
    ScrubBridgeCreate en s = (s, none) ∧
    ScrubBridgeExecProcess en s = (s, none) :=
  ⟨SPP_passthrough h, scrubBytes_passthrough h, scrubBytes_passthrough h⟩

theorem C4_witness :
    hasKeywords "\x7benv" = true ∧ Json.parse "\x7benv" = none ∧
    ScrubProcessParameters true "\x7benv" = ("\x7benv", none) ∧
    ScrubBridgeCreate true "\x7benv" = ("\x7benv", none) ∧
    ScrubBridgeExecProcess true "\x7benv" = ("\x7benv", none) := by
  refine ⟨rfl, rfl, ?_⟩
  exact C4_short_circuit_passthrough true "\x7benv" (Or.inr (Or.inr rfl))

/-- C5: a valid-JSON object input with scrubbing enabled and a keyword
present that lacks `ActivityId` or lacks `ContainerId` makes both
`ScrubBridgeCreate` and `ScrubBridgeExecProcess` fail with the
unknown-type error, regardless of the rest of the structure. -/
theorem C5_base_signature (s : String) (m : genMap)
    (hk : hasKeywords s = true) (hp : Json.parse s = some (.obj m))
    (hmiss : lookupKV m "ActivityId" = none ∨ lookupKV m "ContainerId" = none) :
    ScrubBridgeCreate true s = ("", some ScrubError.unknownType) ∧
    ScrubBridgeExecProcess true s = ("", some ScrubError.unknownType) := by
  have hbase : isRequestBase m = false := by
    rw [isRequestBase]
    rcases hmiss with h | h
    · rw [h]
      rfl
    · rw [h]
      simp
  constructor
  · have hscrub : scrubLinuxHostedSystem m = .error .unknownType := by
      rw [scrubLinuxHostedSystem, hbase]
      rfl
    rw [ScrubBridgeCreate, scrubBytes_run hk hp, hscrub]
  · have hscrub : scrubExecuteProcess true m = .error .unknownType := by
      rw [scrubExecuteProcess, hbase]
      rfl
    rw [ScrubBridgeExecProcess, scrubBytes_run hk hp, hscrub]

theorem C5_witness :
    hasKeywords "\x7b\"env\":1\x7d" = true ∧
    Json.parse "\x7b\"env\":1\x7d" = some (.obj [("env", .num "1")]) ∧
    lookupKV [("env", Json.num "1")] "ActivityId" = none ∧
    ScrubBridgeCreate true "\x7b\"env\":1\x7d" = ("", some ScrubError.unknownType) ∧
    ScrubBridgeExecProcess true "\x7b\"env\":1\x7d" = ("", some ScrubError.unknownType) := by
  refine ⟨rfl, rfl, rfl, ?_⟩
  exact C5_base_signature _ _ rfl rfl (Or.inl rfl)

/-- C7: whenever a redaction operation reports an error, the accompanying
result is the empty string — never the original input and never a partial
encoding. -/
theorem C7_error_empty_result (en : Bool) (s r : String) (e : ScrubError) :
    (ScrubProcessParameters en s = (r, some e) → r = "") ∧
    (ScrubBridgeCreate en s = (r, some e) → r = "") ∧
    (ScrubBridgeExecProcess en s = (r, some e) → r = "") :=
  ⟨fun h => SPP_error_empty h,
   fun h => scrubBytes_error_empty h,
   fun h => scrubBytes_error_empty h⟩

theorem C7_witness :
    ScrubBridgeExecProcess true "\x7b\"ActivityId\":\"a\",\"ContainerId\":\"c\",\"env\":0\x7d" =
      ("", some ScrubError.unknownType) ∧ ("" : String) = "" :=
  ⟨rfl, (C7_error_empty_result true
    "\x7b\"ActivityId\":\"a\",\"ContainerId\":\"c\",\"env\":0\x7d" "" ScrubError.unknownType).2.2 rfl⟩

/-- C9: the encoder performs no HTML-style escaping: the characters
`<`, `>` and `&` are emitted literally by the character escaper, and the
sentinel string `<scrubbed>` is encoded with its angle brackets intact. -/
theorem C9_no_html_escaping :
    (∀ c : Char, c = '<' ∨ c = '>' ∨ c = '&' → escChar c = [c]) ∧
    encodeJ (.str ScrubbedReplacement) = '"' :: (ScrubbedReplacement.data ++ ['"']) := by
  constructor
  · intro c h
    rcases h with rfl | rfl | rfl
    · rfl
    · rfl
    · rfl
  · rfl

theorem C9_witness : ('<' = '<' ∨ '<' = '>' ∨ '<' = '&') ∧ escChar '<' = ['<'] :=
  ⟨Or.inl rfl, C9_no_html_escaping.1 '<' (Or.inl rfl)⟩

/-- C1: for a valid-JSON object envelope with both base keys, scrubbing
enabled and a keyword present, `ScrubBridgeCreate` navigates
`ContainerConfig` → `OciSpecification` → `process` through object-shaped
values; when every step resolves and `env` exists, it re-encodes the tree
with `env` replaced by the one-element sentinel array and no error; when
any step is absent or not object-shaped, or `env` is missing, it fails
with the unknown-type error. -/
theorem C1_create_navigation (s : String) (m : genMap)
    (hk : hasKeywords s = true) (hp : Json.parse s = some (.obj m))
    (hbase : isRequestBase m = true) :
    (∀ cc oci proc, index m "ContainerConfig" = some cc →
      index cc "OciSpecification" = some oci →
      index oci "process" = some proc →
      (lookupKV proc "env").isSome = true →
      ScrubBridgeCreate true s =
        (encode (.obj (insertKV "ContainerConfig" (.obj (insertKV "OciSpecification"
          (.obj (insertKV "process" (.obj (insertKV "env"
            (.arr [.str ScrubbedReplacement]) proc)) oci)) cc)) m)), none)) ∧
    ((¬ ∃ cc oci proc, index m "ContainerConfig" = some cc ∧
        index cc "OciSpecification" = some oci ∧
        index oci "process" = some proc ∧
        (lookupKV proc "env").isSome = true) →
      ScrubBridgeCreate true s = ("", some ScrubError.unknownType)) := by
  constructor
  · intro cc oci proc hcc hoci hproc henv
    have hscrub : scrubLinuxHostedSystem m = .ok (insertKV "ContainerConfig"
        (.obj (insertKV "OciSpecification" (.obj (insertKV "process"
          (.obj (insertKV "env" (.arr [.str ScrubbedReplacement]) proc)) oci)) cc)) m) := by
      simp only [scrubLinuxHostedSystem, hbase, hcc, hoci, hproc, henv, Bool.not_true,
        Bool.false_eq_true, if_false, if_true]
    rw [ScrubBridgeCreate, scrubBytes_run hk hp, hscrub]
  · intro hne
    have hscrub : scrubLinuxHostedSystem m = .error .unknownType := by
      rcases hcc : index m "ContainerConfig" with _ | cc
      · simp [scrubLinuxHostedSystem, hbase, hcc]
      · rcases hoci : index cc "OciSpecification" with _ | oci
        · simp [scrubLinuxHostedSystem, hbase, hcc, hoci]
        · rcases hproc : index oci "process" with _ | proc
          · simp [scrubLinuxHostedSystem, hbase, hcc, hoci, hproc]
          · by_cases henv : (lookupKV proc "env").isSome = true
            · exact absurd ⟨cc, oci, proc, hcc, hoci, hproc, henv⟩ hne
            · have h2 : (lookupKV proc "env").isSome = false := by
                cases hx : (lookupKV proc "env").isSome
                · rfl
                · exact absurd hx henv
              simp [scrubLinuxHostedSystem, hbase, hcc, hoci, hproc, h2]
    rw [ScrubBridgeCreate, scrubBytes_run hk hp, hscrub]

theorem C1_witness :
    hasKeywords "\x7b\"ActivityId\":\"a\",\"ContainerId\":\"c\",\"ContainerConfig\":\x7b\"OciSpecification\":\x7b\"process\":\x7b\"env\":[\"A=B\"]\x7d\x7d\x7d\x7d" = true ∧
    Json.parse "\x7b\"ActivityId\":\"a\",\"ContainerId\":\"c\",\"ContainerConfig\":\x7b\"OciSpecification\":\x7b\"process\":\x7b\"env\":[\"A=B\"]\x7d\x7d\x7d\x7d" =
      some (.obj [("ActivityId", .str "a"),
        ("ContainerConfig", .obj [("OciSpecification", .obj [("process",
          .obj [("env", .arr [.str "A=B"])])])]),
        ("ContainerId", .str "c")]) ∧
    isRequestBase [("ActivityId", .str "a"),
        ("ContainerConfig", .obj [("OciSpecification", .obj [("process",
          .obj [("env", .arr [.str "A=B"])])])]),
        ("ContainerId", .str "c")] = true ∧
    ScrubBridgeCreate true "\x7b\"ActivityId\":\"a\",\"ContainerId\":\"c\",\"ContainerConfig\":\x7b\"OciSpecification\":\x7b\"process\":\x7b\"env\":[\"A=B\"]\x7d\x7d\x7d\x7d" =
      (encode (.obj (insertKV "ContainerConfig" (.obj (insertKV "OciSpecification"
        (.obj (insertKV "process" (.obj (insertKV "env"
          (.arr [.str ScrubbedReplacement]) [("env", .arr [.str "A=B"])]))
            [("process", .obj [("env", .arr [.str "A=B"])])]))
          [("OciSpecification", .obj [("process", .obj [("env", .arr [.str "A=B"])])])]))
        [("ActivityId", .str "a"),
         ("ContainerConfig", .obj [("OciSpecification", .obj [("process",
           .obj [("env", .arr [.str "A=B"])])])]),
         ("ContainerId", .str "c")])), none) := by
  refine ⟨rfl, rfl, rfl, ?_⟩
  exact (C1_create_navigation
    "\x7b\"ActivityId\":\"a\",\"ContainerId\":\"c\",\"ContainerConfig\":\x7b\"OciSpecification\":\x7b\"process\":\x7b\"env\":[\"A=B\"]\x7d\x7d\x7d\x7d"
    [("ActivityId", .str "a"),
     ("ContainerConfig", .obj [("OciSpecification", .obj [("process",
       .obj [("env", .arr [.str "A=B"])])])]),
     ("ContainerId", .str "c")] rfl rfl rfl).1
    [("OciSpecification", .obj [("process", .obj [("env", .arr [.str "A=B"])])])]
    [("process", .obj [("env", .arr [.str "A=B"])])]
    [("env", .arr [.str "A=B"])] rfl rfl rfl rfl

/-- C3: for a string that is valid JSON decodable into the structured
process-parameters shape, with scrubbing enabled and a keyword present,
`ScrubProcessParameters` succeeds and returns the re-encoding in which
`Environment` is exactly the single-entry sentinel mapping and
`CommandLine` is unchanged; decoding the output recovers exactly that
shape. -/
theorem C3_structured_redaction (s : String) (j : Json) (pp : ProcessParameters)
    (hk : hasKeywords s = true) (hp : Json.parse s = some j)
    (hd : decodePP j = some pp) :
    ScrubProcessParameters true s =
      (encode (ppJson ⟨pp.CommandLine, [(ScrubbedReplacement, ScrubbedReplacement)]⟩), none) ∧
    ∃ j2, Json.parse (ScrubProcessParameters true s).1 = some j2 ∧
      decodePP j2 = some ⟨pp.CommandLine, [(ScrubbedReplacement, ScrubbedReplacement)]⟩ := by
  have h1 := SPP_run hk hp hd
  rw [pp_update_env] at h1
  refine ⟨h1, ⟨ppJson ⟨pp.CommandLine, [(ScrubbedReplacement, ScrubbedReplacement)]⟩, ?_, ?_⟩⟩
  · rw [h1]
    exact parse_encode (wf_ppJson_scrubbed pp.CommandLine)
  · exact decodePP_ppJson _

theorem C3_witness :
    hasKeywords "\x7b\"CommandLine\":\"x\",\"Environment\":\x7b\"A\":\"1\"\x7d\x7d" = true ∧
    Json.parse "\x7b\"CommandLine\":\"x\",\"Environment\":\x7b\"A\":\"1\"\x7d\x7d" =
      some (.obj [("CommandLine", .str "x"), ("Environment", .obj [("A", .str "1")])]) ∧
    decodePP (.obj [("CommandLine", .str "x"), ("Environment", .obj [("A", .str "1")])]) =
      some ⟨"x", [("A", "1")]⟩ ∧
    ScrubProcessParameters true "\x7b\"CommandLine\":\"x\",\"Environment\":\x7b\"A\":\"1\"\x7d\x7d" =
      (encode (ppJson ⟨"x", [(ScrubbedReplacement, ScrubbedReplacement)]⟩), none) := by
  refine ⟨rfl, rfl, rfl, ?_⟩
  exact (C3_structured_redaction "\x7b\"CommandLine\":\"x\",\"Environment\":\x7b\"A\":\"1\"\x7d\x7d"
    (.obj [("CommandLine", .str "x"), ("Environment", .obj [("A", .str "1")])])
    ⟨"x", [("A", "1")]⟩ rfl rfl rfl).1

/-- C6: for a valid-JSON envelope with the base signature, scrubbing
enabled and a keyword present, whose `Settings` object holds a
`ProcessParameters` key with a non-string value, `ScrubBridgeExecProcess`
fails — but with the same unknown-type error the shape failures use, not
a distinct type-mismatch error kind. -/
theorem C6_non_string_pp_unknown_type (s : String) (m st : genMap) (v : Json)
    (hk : hasKeywords s = true) (hp : Json.parse s = some (.obj m))
    (hbase : isRequestBase m = true)
    (hst : index m "Settings" = some st)
    (hpp : lookupKV st "ProcessParameters" = some v)
    (hns : ∀ s2 : String, v ≠ .str s2) :
    ScrubBridgeExecProcess true s = ("", some ScrubError.unknownType) := by
  have hscrub : scrubExecuteProcess true m = .error .unknownType := by
    cases v with
    | str s2 => exact absurd rfl (hns s2)
    | null => simp [scrubExecuteProcess, hbase, hst, hpp]
    | bool b2 => simp [scrubExecuteProcess, hbase, hst, hpp]
    | num l2 => simp [scrubExecuteProcess, hbase, hst, hpp]
    | arr xs => simp [scrubExecuteProcess, hbase, hst, hpp]
    | obj kvs => simp [scrubExecuteProcess, hbase, hst, hpp]
  rw [ScrubBridgeExecProcess, scrubBytes_run hk hp, hscrub]

theorem C6_witness :
    hasKeywords "\x7b\"ActivityId\":\"a\",\"ContainerId\":\"c\",\"Settings\":\x7b\"ProcessParameters\":5\x7d,\"x\":\"env\"\x7d" = true ∧
    Json.parse "\x7b\"ActivityId\":\"a\",\"ContainerId\":\"c\",\"Settings\":\x7b\"ProcessParameters\":5\x7d,\"x\":\"env\"\x7d" =
      some (.obj [("ActivityId", .str "a"), ("ContainerId", .str "c"),
        ("Settings", .obj [("ProcessParameters", .num "5")]), ("x", .str "env")]) ∧
    isRequestBase [("ActivityId", .str "a"), ("ContainerId", .str "c"),
        ("Settings", .obj [("ProcessParameters", .num "5")]), ("x", .str "env")] = true ∧
    lookupKV [("ProcessParameters", Json.num "5")] "ProcessParameters" = some (.num "5") ∧
    ScrubBridgeExecProcess true "\x7b\"ActivityId\":\"a\",\"ContainerId\":\"c\",\"Settings\":\x7b\"ProcessParameters\":5\x7d,\"x\":\"env\"\x7d" =
      ("", some ScrubError.unknownType) := by
  refine ⟨rfl, rfl, rfl, rfl, ?_⟩
  exact C6_non_string_pp_unknown_type
    "\x7b\"ActivityId\":\"a\",\"ContainerId\":\"c\",\"Settings\":\x7b\"ProcessParameters\":5\x7d,\"x\":\"env\"\x7d"
    [("ActivityId", .str "a"), ("ContainerId", .str "c"),
     ("Settings", .obj [("ProcessParameters", .num "5")]), ("x", .str "env")]
    [("ProcessParameters", Json.num "5")] (.num "5")
    rfl rfl rfl rfl rfl (fun s2 h => nomatch h)

theorem C6_counterexample :
    Json.parse "\x7b\"ActivityId\":\"a6\",\"ContainerId\":\"c\",\"Settings\":\x7b\"ProcessParameters\":5\x7d,\"x\":\"env\"\x7d" =
      some (.obj [("ActivityId", .str "a6"), ("ContainerId", .str "c"),
        ("Settings", .obj [("ProcessParameters", .num "5")]), ("x", .str "env")]) ∧
    isRequestBase [("ActivityId", .str "a6"), ("ContainerId", .str "c"),
        ("Settings", .obj [("ProcessParameters", .num "5")]), ("x", .str "env")] = true ∧
    lookupKV [("ProcessParameters", Json.num "5")] "ProcessParameters" = some (.num "5") ∧
    ScrubBridgeExecProcess true "\x7b\"ActivityId\":\"a6\",\"ContainerId\":\"c\",\"Settings\":\x7b\"ProcessParameters\":5\x7d,\"x\":\"env\"\x7d" =
      ("", some ScrubError.unknownType) ∧
    ScrubBridgeExecProcess true "\x7b\"env\":2\x7d" = ("", some ScrubError.unknownType) :=
  ⟨rfl, rfl, rfl, rfl, rfl⟩

theorem encode_last (j : Json) : (encode j).data.getLast? = some '\n' := by
  rw [encode]
  exact List.getLast?_concat _

theorem scrubBytes_success_encode {b out : String} {j : Json}
    {scrub : genMap → Except ScrubError genMap}
    (hk : hasKeywords b = true) (hp : Json.parse b = some j)
    (h : scrubBytes true b scrub = (out, none)) :
    ∃ m m2, j = .obj m ∧ scrub m = .ok m2 ∧ out = encode (.obj m2) := by
  cases j with
  | obj m =>
    rw [scrubBytes_run hk hp] at h
    rcases hs : scrub m with e | m2
    · rw [hs] at h
      injection h with _ h2
      cases h2
    · rw [hs] at h
      injection h with h1 _
      exact ⟨m, m2, rfl, hs, h1.symm⟩
  | null =>
    rw [scrubBytes_not_obj hk hp (fun _ => by intro hx; cases hx)] at h
    injection h with _ h2
    cases h2
  | bool b2 =>
    rw [scrubBytes_not_obj hk hp (fun _ => by intro hx; cases hx)] at h
    injection h with _ h2
    cases h2
  | str s2 =>
    rw [scrubBytes_not_obj hk hp (fun _ => by intro hx; cases hx)] at h
    injection h with _ h2
    cases h2
  | num l2 =>
    rw [scrubBytes_not_obj hk hp (fun _ => by intro hx; cases hx)] at h
    injection h with _ h2
    cases h2
  | arr xs =>
    rw [scrubBytes_not_obj hk hp (fun _ => by intro hx; cases hx)] at h
    injection h with _ h2
    cases h2

theorem exec_recursion_core {s : String} {m st : genMap} {inner : String}
    {ji : Json} {pp : ProcessParameters}
    (hk : hasKeywords s = true) (hp : Json.parse s = some (.obj m))
    (hbase : isRequestBase m = true)
    (hst : index m "Settings" = some st)
    (hppv : lookupKV st "ProcessParameters" = some (.str inner))
    (hki : hasKeywords inner = true)
    (hpi : Json.parse inner = some ji)
    (hdi : decodePP ji = some pp) :
    ScrubBridgeExecProcess true s =
      (encode (.obj (insertKV "Settings" (.obj (insertKV "ProcessParameters"
        (.str (encode (ppJson ⟨pp.CommandLine,
          [(ScrubbedReplacement, ScrubbedReplacement)]⟩))) st)) m)), none) ∧
    wfJ (.obj (insertKV "Settings" (.obj (insertKV "ProcessParameters"
      (.str (encode (ppJson ⟨pp.CommandLine,
        [(ScrubbedReplacement, ScrubbedReplacement)]⟩))) st)) m)) = true := by
  have hSPP := SPP_run hki hpi hdi
  rw [pp_update_env] at hSPP
  have hscrub : scrubExecuteProcess true m = .ok (insertKV "Settings"
      (.obj (insertKV "ProcessParameters"
        (.str (encode (ppJson ⟨pp.CommandLine,
          [(ScrubbedReplacement, ScrubbedReplacement)]⟩))) st)) m) := by
    simp only [scrubExecuteProcess, hbase, hst, hppv, hSPP, Bool.not_true,
      Bool.false_eq_true, if_false]
  have hwm : wfJ (.obj m) = true := parse_wf hp
  have hwst : wfJ (.obj st) = true := wf_of_index hwm hst
  refine ⟨?_, wf_obj_insert hwm (wf_obj_insert hwst rfl)⟩
  rw [ScrubBridgeExecProcess, scrubBytes_run hk hp, hscrub]

/-- C2: for a valid-JSON envelope with the base signature, scrubbing
enabled and a keyword present, whose `Settings.ProcessParameters` string
itself contains a keyword, parses and decodes into the structured shape,
`ScrubBridgeExecProcess` succeeds and the stored `ProcessParameters`
string decodes to an `Environment` equal to the sentinel mapping.  (The
claim as stated omits the inner keyword prefilter: an inner payload that
spells `Environment` with a JSON escape defeats it.) -/
theorem C2_exec_recursion (s : String) (m st : genMap) (inner : String)
    (ji : Json) (pp : ProcessParameters)
    (hk : hasKeywords s = true) (hp : Json.parse s = some (.obj m))
    (hbase : isRequestBase m = true)
    (hst : index m "Settings" = some st)
    (hppv : lookupKV st "ProcessParameters" = some (.str inner))
    (hki : hasKeywords inner = true)
    (hpi : Json.parse inner = some ji)
    (hdi : decodePP ji = some pp) :
    ∃ out m2 st2 inner2 j2,
      ScrubBridgeExecProcess true s = (out, none) ∧
      Json.parse out = some (.obj m2) ∧
      index m2 "Settings" = some st2 ∧
      lookupKV st2 "ProcessParameters" = some (.str inner2) ∧
      Json.parse inner2 = some j2 ∧
      decodePP j2 = some ⟨pp.CommandLine, [(ScrubbedReplacement, ScrubbedReplacement)]⟩ := by
  obtain ⟨hrun, hwf⟩ := exec_recursion_core hk hp hbase hst hppv hki hpi hdi
  exact ⟨_, _, _, _, _, hrun, parse_encode hwf,
    index_insertKV_eq m "Settings" _,
    lookupKV_insertKV_eq st "ProcessParameters" _,
    parse_encode (wf_ppJson_scrubbed pp.CommandLine),
    decodePP_ppJson _⟩

theorem C2_witness :
    hasKeywords "\x7b\"ActivityId\":\"a\",\"ContainerId\":\"c\",\"Settings\":\x7b\"ProcessParameters\":\"\x7b\\\"Environment\\\":\x7b\\\"A\\\":\\\"B\\\"\x7d\x7d\"\x7d\x7d" = true ∧
    Json.parse "\x7b\"ActivityId\":\"a\",\"ContainerId\":\"c\",\"Settings\":\x7b\"ProcessParameters\":\"\x7b\\\"Environment\\\":\x7b\\\"A\\\":\\\"B\\\"\x7d\x7d\"\x7d\x7d" =
      some (.obj [("ActivityId", .str "a"), ("ContainerId", .str "c"),
        ("Settings", .obj [("ProcessParameters",
          .str "\x7b\"Environment\":\x7b\"A\":\"B\"\x7d\x7d")])]) ∧
    hasKeywords "\x7b\"Environment\":\x7b\"A\":\"B\"\x7d\x7d" = true ∧
    decodePP (.obj [("Environment", .obj [("A", .str "B")])]) = some ⟨"", [("A", "B")]⟩ ∧
    (∃ out m2 st2 inner2 j2,
      ScrubBridgeExecProcess true "\x7b\"ActivityId\":\"a\",\"ContainerId\":\"c\",\"Settings\":\x7b\"ProcessParameters\":\"\x7b\\\"Environment\\\":\x7b\\\"A\\\":\\\"B\\\"\x7d\x7d\"\x7d\x7d" = (out, none) ∧
      Json.parse out = some (.obj m2) ∧
      index m2 "Settings" = some st2 ∧
      lookupKV st2 "ProcessParameters" = some (.str inner2) ∧
      Json.parse inner2 = some j2 ∧
      decodePP j2 = some ⟨"", [(ScrubbedReplacement, ScrubbedReplacement)]⟩) := by
  refine ⟨rfl, rfl, rfl, rfl, ?_⟩
  exact C2_exec_recursion
    "\x7b\"ActivityId\":\"a\",\"ContainerId\":\"c\",\"Settings\":\x7b\"ProcessParameters\":\"\x7b\\\"Environment\\\":\x7b\\\"A\\\":\\\"B\\\"\x7d\x7d\"\x7d\x7d"
    [("ActivityId", .str "a"), ("ContainerId", .str "c"),
     ("Settings", .obj [("ProcessParameters",
       .str "\x7b\"Environment\":\x7b\"A\":\"B\"\x7d\x7d")])]
    [("ProcessParameters", .str "\x7b\"Environment\":\x7b\"A\":\"B\"\x7d\x7d")]
    "\x7b\"Environment\":\x7b\"A\":\"B\"\x7d\x7d"
    (.obj [("Environment", .obj [("A", .str "B")])])
    ⟨"", [("A", "B")]⟩ rfl rfl rfl rfl rfl rfl rfl rfl

set_option maxRecDepth 16384 in
theorem C2_counterexample :
    hasKeywords "\x7b\"ActivityId\":\"b\",\"ContainerId\":\"c\",\"Settings\":\x7b\"ProcessParameters\":\"\x7b\\\"\\\\u0045nvironment\\\":\x7b\\\"SECRET\\\":\\\"x\\\"\x7d\x7d\"\x7d,\"x\":\"env\"\x7d" = true ∧
    Json.parse "\x7b\"ActivityId\":\"b\",\"ContainerId\":\"c\",\"Settings\":\x7b\"ProcessParameters\":\"\x7b\\\"\\\\u0045nvironment\\\":\x7b\\\"SECRET\\\":\\\"x\\\"\x7d\x7d\"\x7d,\"x\":\"env\"\x7d" =
      some (.obj [("ActivityId", .str "b"), ("ContainerId", .str "c"),
        ("Settings", .obj [("ProcessParameters",
          .str "\x7b\"\\u0045nvironment\":\x7b\"SECRET\":\"x\"\x7d\x7d")]),
        ("x", .str "env")]) ∧
    isRequestBase [("ActivityId", .str "b"), ("ContainerId", .str "c"),
        ("Settings", .obj [("ProcessParameters",
          .str "\x7b\"\\u0045nvironment\":\x7b\"SECRET\":\"x\"\x7d\x7d")]),
        ("x", .str "env")] = true ∧
    Json.parse "\x7b\"\\u0045nvironment\":\x7b\"SECRET\":\"x\"\x7d\x7d" =
      some (.obj [("Environment", .obj [("SECRET", .str "x")])]) ∧
    decodePP (.obj [("Environment", .obj [("SECRET", .str "x")])]) =
      some ⟨"", [("SECRET", "x")]⟩ ∧
    hasKeywords "\x7b\"\\u0045nvironment\":\x7b\"SECRET\":\"x\"\x7d\x7d" = false ∧
    ScrubBridgeExecProcess true "\x7b\"ActivityId\":\"b\",\"ContainerId\":\"c\",\"Settings\":\x7b\"ProcessParameters\":\"\x7b\\\"\\\\u0045nvironment\\\":\x7b\\\"SECRET\\\":\\\"x\\\"\x7d\x7d\"\x7d,\"x\":\"env\"\x7d" =
      ("\x7b\"ActivityId\":\"b\",\"ContainerId\":\"c\",\"Settings\":\x7b\"ProcessParameters\":\"\x7b\\\"\\\\u0045nvironment\\\":\x7b\\\"SECRET\\\":\\\"x\\\"\x7d\x7d\"\x7d,\"x\":\"env\"\x7d\n", none) ∧
    Json.parse "\x7b\"ActivityId\":\"b\",\"ContainerId\":\"c\",\"Settings\":\x7b\"ProcessParameters\":\"\x7b\\\"\\\\u0045nvironment\\\":\x7b\\\"SECRET\\\":\\\"x\\\"\x7d\x7d\"\x7d,\"x\":\"env\"\x7d\n" =
      some (.obj [("ActivityId", .str "b"), ("ContainerId", .str "c"),
        ("Settings", .obj [("ProcessParameters",
          .str "\x7b\"\\u0045nvironment\":\x7b\"SECRET\":\"x\"\x7d\x7d")]),
        ("x", .str "env")]) ∧
    ¬ ([("SECRET", "x")] : List (String × String)) =
      [(ScrubbedReplacement, ScrubbedReplacement)] :=
  ⟨rfl, rfl, rfl, rfl, rfl, rfl, rfl, rfl, by decide⟩

/-- C8: each redaction operation is idempotent on its successes: when the
guarded path runs and succeeds, re-applying the operation to the output
succeeds and returns the output itself byte for byte, since the sentinel
mapping and sentinel array are stable under re-application. -/
theorem C8_idempotent :
    (∀ s j out, hasKeywords s = true → Json.parse s = some j →
      ScrubProcessParameters true s = (out, none) →
      ScrubProcessParameters true out = (out, none)) ∧
    (∀ s j out, hasKeywords s = true → Json.parse s = some j →
      ScrubBridgeCreate true s = (out, none) →
      ScrubBridgeCreate true out = (out, none)) ∧
    (∀ s j out, hasKeywords s = true → Json.parse s = some j →
      ScrubBridgeExecProcess true s = (out, none) →
      ScrubBridgeExecProcess true out = (out, none)) := by
  refine ⟨fun s j out _ _ h => SPP_idem h, ?_, ?_⟩
  · intro s j out hk hp h
    rw [ScrubBridgeCreate] at h
    obtain ⟨m, m2, rfl, hscrub, rfl⟩ := scrubBytes_success_encode hk hp h
    obtain ⟨hbase, cc, oci, proc, hcc, hoci, hproc, henv, rfl⟩ := scrubLHS_ok_inv hscrub
    have hwm : wfJ (.obj m) = true := parse_wf hp
    have hwcc : wfJ (.obj cc) = true := wf_of_index hwm hcc
    have hwoci : wfJ (.obj oci) = true := wf_of_index hwcc hoci
    have hwproc : wfJ (.obj proc) = true := wf_of_index hwoci hproc
    have hw2 : wfJ (.obj (insertKV "ContainerConfig" (.obj (insertKV "OciSpecification"
        (.obj (insertKV "process" (.obj (insertKV "env"
          (.arr [.str ScrubbedReplacement]) proc)) oci)) cc)) m)) = true :=
      wf_obj_insert hwm (wf_obj_insert hwcc (wf_obj_insert hwoci
        (wf_obj_insert hwproc rfl)))
    by_cases hk2 : hasKeywords (encode (.obj (insertKV "ContainerConfig"
        (.obj (insertKV "OciSpecification" (.obj (insertKV "process"
          (.obj (insertKV "env" (.arr [.str ScrubbedReplacement]) proc)) oci)) cc)) m))) = true
    · have hp2 := parse_encode hw2
      rw [ScrubBridgeCreate, scrubBytes_run hk2 hp2]
      have hbase2 : isRequestBase (insertKV "ContainerConfig"
          (.obj (insertKV "OciSpecification" (.obj (insertKV "process"
            (.obj (insertKV "env" (.arr [.str ScrubbedReplacement]) proc)) oci)) cc)) m) = true :=
        isRequestBase_insertKV (by decide) (by decide) hbase
      have hcc2 := index_insertKV_eq m "ContainerConfig"
        (insertKV "OciSpecification" (.obj (insertKV "process"
          (.obj (insertKV "env" (.arr [.str ScrubbedReplacement]) proc)) oci)) cc)
      have hoci2 := index_insertKV_eq cc "OciSpecification"
        (insertKV "process" (.obj (insertKV "env"
          (.arr [.str ScrubbedReplacement]) proc)) oci)
      have hproc2 := index_insertKV_eq oci "process"
        (insertKV "env" (.arr [.str ScrubbedReplacement]) proc)
      have henv2 : (lookupKV (insertKV "env" (.arr [.str ScrubbedReplacement]) proc)
          "env").isSome = true := by
        rw [lookupKV_insertKV_eq]
        rfl
      have hscrub2 : scrubLinuxHostedSystem (insertKV "ContainerConfig"
          (.obj (insertKV "OciSpecification" (.obj (insertKV "process"
            (.obj (insertKV "env" (.arr [.str ScrubbedReplacement]) proc)) oci)) cc)) m) =
          .ok (insertKV "ContainerConfig"
          (.obj (insertKV "OciSpecification" (.obj (insertKV "process"
            (.obj (insertKV "env" (.arr [.str ScrubbedReplacement]) proc)) oci)) cc)) m) := by
        simp only [scrubLinuxHostedSystem, hbase2, hcc2, hoci2, hproc2, henv2, Bool.not_true,
          Bool.false_eq_true, if_false, if_true]
        rw [insertKV_insertKV_same, insertKV_insertKV_same, insertKV_insertKV_same,
          insertKV_insertKV_same]
      rw [hscrub2]
    · exact scrubBytes_passthrough (Or.inr (Or.inl (Bool.eq_false_iff.mpr hk2)))
  · intro s j out hk hp h
    rw [ScrubBridgeExecProcess] at h
    obtain ⟨m, m2, rfl, hscrub, rfl⟩ := scrubBytes_success_encode hk hp h
    obtain ⟨hbase, st, s0, s1, hst, hppv, hspp, rfl⟩ := scrubEP_ok_inv hscrub
    have hwm : wfJ (.obj m) = true := parse_wf hp
    have hwst : wfJ (.obj st) = true := wf_of_index hwm hst
    have hw2 : wfJ (.obj (insertKV "Settings" (.obj (insertKV "ProcessParameters"
        (.str s1) st)) m)) = true :=
      wf_obj_insert hwm (wf_obj_insert hwst rfl)
    by_cases hk2 : hasKeywords (encode (.obj (insertKV "Settings"
        (.obj (insertKV "ProcessParameters" (.str s1) st)) m))) = true
    · have hp2 := parse_encode hw2
      rw [ScrubBridgeExecProcess, scrubBytes_run hk2 hp2]
      have hbase2 : isRequestBase (insertKV "Settings"
          (.obj (insertKV "ProcessParameters" (.str s1) st)) m) = true :=
        isRequestBase_insertKV (by decide) (by decide) hbase
      have hst2 := index_insertKV_eq m "Settings"
        (insertKV "ProcessParameters" (.str s1) st)
      have hppv2 : lookupKV (insertKV "ProcessParameters" (.str s1) st)
          "ProcessParameters" = some (.str s1) :=
        lookupKV_insertKV_eq st "ProcessParameters" (.str s1)
      have hspp2 : ScrubProcessParameters true s1 = (s1, none) := SPP_idem hspp
      have hscrub2 : scrubExecuteProcess true (insertKV "Settings"
          (.obj (insertKV "ProcessParameters" (.str s1) st)) m) =
          .ok (insertKV "Settings"
            (.obj (insertKV "ProcessParameters" (.str s1) st)) m) := by
        simp only [scrubExecuteProcess, hbase2, hst2, hppv2, hspp2, Bool.not_true,
          Bool.false_eq_true, if_false]
        rw [insertKV_insertKV_same, insertKV_insertKV_same]
      rw [hscrub2]
    · exact scrubBytes_passthrough (Or.inr (Or.inl (Bool.eq_false_iff.mpr hk2)))

theorem C8_witness :
    ScrubProcessParameters true "\x7b\"Environment\":\x7b\"K\":\"V\"\x7d\x7d" =
      ("\x7b\"Environment\":\x7b\"<scrubbed>\":\"<scrubbed>\"\x7d\x7d\n", none) ∧
    ScrubProcessParameters true "\x7b\"Environment\":\x7b\"<scrubbed>\":\"<scrubbed>\"\x7d\x7d\n" =
      ("\x7b\"Environment\":\x7b\"<scrubbed>\":\"<scrubbed>\"\x7d\x7d\n", none) :=
  ⟨rfl, C8_idempotent.1 "\x7b\"Environment\":\x7b\"K\":\"V\"\x7d\x7d"
    (.obj [("Environment", .obj [("K", .str "V")])])
    "\x7b\"Environment\":\x7b\"<scrubbed>\":\"<scrubbed>\"\x7d\x7d\n" rfl rfl rfl⟩

/-- C10: every output of a redaction path that reaches re-encoding ends
with the encoder's trailing newline, and such an output is never
byte-identical to an input that does not end in a newline; the stored
`ProcessParameters` string ends with a newline when the inner redaction
itself reached re-encoding (inner keyword present, inner JSON valid and
decodable).  (The claim as stated asserts the inner newline for every
successful container-exec redaction; an inner payload that evades the
inner keyword prefilter is stored unchanged, without a newline.) -/
theorem C10_trailing_newline :
    (∀ s j out, hasKeywords s = true → Json.parse s = some j →
      ScrubProcessParameters true s = (out, none) → out.data.getLast? = some '\n') ∧
    (∀ s j out, hasKeywords s = true → Json.parse s = some j →
      ScrubBridgeCreate true s = (out, none) → out.data.getLast? = some '\n') ∧
    (∀ s j out, hasKeywords s = true → Json.parse s = some j →
      ScrubBridgeExecProcess true s = (out, none) → out.data.getLast? = some '\n') ∧
    (∀ s (m st : genMap) inner ji (pp : ProcessParameters),
      hasKeywords s = true → Json.parse s = some (.obj m) →
      isRequestBase m = true → index m "Settings" = some st →
      lookupKV st "ProcessParameters" = some (.str inner) →
      hasKeywords inner = true → Json.parse inner = some ji →
      decodePP ji = some pp →
      ∃ out m2 st2 inner2,
        ScrubBridgeExecProcess true s = (out, none) ∧
        Json.parse out = some (.obj m2) ∧
        index m2 "Settings" = some st2 ∧
        lookupKV st2 "ProcessParameters" = some (.str inner2) ∧
        inner2.data.getLast? = some '\n') ∧
    (∀ s j out, hasKeywords s = true → Json.parse s = some j →
      s.data.getLast? ≠ some '\n' →
      (ScrubProcessParameters true s = (out, none) → out ≠ s) ∧
      (ScrubBridgeCreate true s = (out, none) → out ≠ s) ∧
      (ScrubBridgeExecProcess true s = (out, none) → out ≠ s)) := by
  have hSPPnl : ∀ s j out, hasKeywords s = true → Json.parse s = some j →
      ScrubProcessParameters true s = (out, none) → out.data.getLast? = some '\n' := by
    intro s j out hk hp h
    rcases SPP_success_inv h with ⟨rfl, hpass | hpass⟩ | ⟨j2, pp, _, _, _, rfl⟩
    · rw [hk] at hpass
      cases hpass
    · rw [hp] at hpass
      cases hpass
    · exact encode_last _
  have hCreatenl : ∀ s j out, hasKeywords s = true → Json.parse s = some j →
      ScrubBridgeCreate true s = (out, none) → out.data.getLast? = some '\n' := by
    intro s j out hk hp h
    rw [ScrubBridgeCreate] at h
    obtain ⟨m, m2, rfl, _, rfl⟩ := scrubBytes_success_encode hk hp h
    exact encode_last _
  have hExecnl : ∀ s j out, hasKeywords s = true → Json.parse s = some j →
      ScrubBridgeExecProcess true s = (out, none) → out.data.getLast? = some '\n' := by
    intro s j out hk hp h
    rw [ScrubBridgeExecProcess] at h
    obtain ⟨m, m2, rfl, _, rfl⟩ := scrubBytes_success_encode hk hp h
    exact encode_last _
  refine ⟨hSPPnl, hCreatenl, hExecnl, ?_, ?_⟩
  · intro s m st inner ji pp hk hp hbase hst hppv hki hpi hdi
    obtain ⟨hrun, hwf⟩ := exec_recursion_core hk hp hbase hst hppv hki hpi hdi
    exact ⟨_, _, _, _, hrun, parse_encode hwf, index_insertKV_eq m "Settings" _,
      lookupKV_insertKV_eq st "ProcessParameters" _, encode_last _⟩
  · intro s j out hk hp hlast
    refine ⟨?_, ?_, ?_⟩
    · intro h heq
      exact hlast (heq ▸ hSPPnl s j out hk hp h)
    · intro h heq
      exact hlast (heq ▸ hCreatenl s j out hk hp h)
    · intro h heq
      exact hlast (heq ▸ hExecnl s j out hk hp h)

theorem C10_witness :
    ScrubProcessParameters true "\x7b\"CommandLine\":\"y\",\"Environment\":\x7b\"B\":\"2\"\x7d\x7d" =
      ("\x7b\"CommandLine\":\"y\",\"Environment\":\x7b\"<scrubbed>\":\"<scrubbed>\"\x7d\x7d\n", none) ∧
    ("\x7b\"CommandLine\":\"y\",\"Environment\":\x7b\"<scrubbed>\":\"<scrubbed>\"\x7d\x7d\n" : String).data.getLast? = some '\n' ∧
    ("\x7b\"CommandLine\":\"y\",\"Environment\":\x7b\"<scrubbed>\":\"<scrubbed>\"\x7d\x7d\n" : String) ≠
      "\x7b\"CommandLine\":\"y\",\"Environment\":\x7b\"B\":\"2\"\x7d\x7d" := by
  refine ⟨rfl, ?_, ?_⟩
  · exact C10_trailing_newline.1 "\x7b\"CommandLine\":\"y\",\"Environment\":\x7b\"B\":\"2\"\x7d\x7d"
      (.obj [("CommandLine", .str "y"), ("Environment", .obj [("B", .str "2")])])
      "\x7b\"CommandLine\":\"y\",\"Environment\":\x7b\"<scrubbed>\":\"<scrubbed>\"\x7d\x7d\n" rfl rfl rfl
  · exact (C10_trailing_newline.2.2.2.2 "\x7b\"CommandLine\":\"y\",\"Environment\":\x7b\"B\":\"2\"\x7d\x7d"
      (.obj [("CommandLine", .str "y"), ("Environment", .obj [("B", .str "2")])])
      "\x7b\"CommandLine\":\"y\",\"Environment\":\x7b\"<scrubbed>\":\"<scrubbed>\"\x7d\x7d\n"
      rfl rfl (by decide)).1 rfl

set_option maxRecDepth 16384 in
theorem C10_counterexample :
    ScrubBridgeExecProcess true "\x7b\"ActivityId\":\"b10\",\"ContainerId\":\"c\",\"Settings\":\x7b\"ProcessParameters\":\"\x7b\\\"\\\\u0045nvironment\\\":\x7b\\\"SECRET\\\":\\\"x\\\"\x7d\x7d\"\x7d,\"x\":\"env\"\x7d" =
      ("\x7b\"ActivityId\":\"b10\",\"ContainerId\":\"c\",\"Settings\":\x7b\"ProcessParameters\":\"\x7b\\\"\\\\u0045nvironment\\\":\x7b\\\"SECRET\\\":\\\"x\\\"\x7d\x7d\"\x7d,\"x\":\"env\"\x7d\n", none) ∧
    Json.parse "\x7b\"ActivityId\":\"b10\",\"ContainerId\":\"c\",\"Settings\":\x7b\"ProcessParameters\":\"\x7b\\\"\\\\u0045nvironment\\\":\x7b\\\"SECRET\\\":\\\"x\\\"\x7d\x7d\"\x7d,\"x\":\"env\"\x7d\n" =
      some (.obj [("ActivityId", .str "b10"), ("ContainerId", .str "c"),
        ("Settings", .obj [("ProcessParameters",
          .str "\x7b\"\\u0045nvironment\":\x7b\"SECRET\":\"x\"\x7d\x7d")]),
        ("x", .str "env")]) ∧
    lookupKV [("ProcessParameters",
        Json.str "\x7b\"\\u0045nvironment\":\x7b\"SECRET\":\"x\"\x7d\x7d")]
      "ProcessParameters" =
      some (.str "\x7b\"\\u0045nvironment\":\x7b\"SECRET\":\"x\"\x7d\x7d") ∧
    ¬ ("\x7b\"\\u0045nvironment\":\x7b\"SECRET\":\"x\"\x7d\x7d" : String).data.getLast? =
      some '\n' :=
  ⟨rfl, rfl, rfl, by decide⟩

end Scrub
